import Mathlib

set_option autoImplicit false

/-!
# Tag-driven query generation: packages `sqlq` and `graphql`

A shallow embedding of `src/sqlq/query_builder.go` and
`src/graphql/query_builder.go`.

* Go strings are Lean strings; `fmt.Sprintf` with `%s` verbs is concatenation.
* What `reflect` reports about types and values is explicit data: kinds, struct
  fields with their tags, pointer targets.
* A call that panics at run time yields `Run.panic`; unbounded recursion (which
  ends a Go program with a stack overflow) is cut by a recursion budget and
  yields `Run.overflow`.
* The database driver is a pair of functions answering each call from the
  history of calls made on the transaction; the history is threaded explicitly.
-/

namespace QueryBuilder

/-! ## Outcomes of a call -/

/-- Outcome of running a Go function: a returned value, a run-time panic, or
the recursion budget being used up. -/
inductive Run (α : Type) where
  | ok (val : α)
  | panic (msg : String)
  | overflow
  deriving DecidableEq, Repr

/-! ## Reflection data shared by both packages -/

/-- The values of `reflect.Kind`. -/
inductive Kind where
  | Invalid | Bool | Int | Int8 | Int16 | Int32 | Int64
  | Uint | Uint8 | Uint16 | Uint32 | Uint64 | Uintptr
  | Float32 | Float64 | Complex64 | Complex128
  | Array | Chan | Func | Interface | Map | Ptr | Slice | String | Struct
  | UnsafePointer
  deriving DecidableEq, Repr

/-- A struct tag in conventional form: the `key:"value"` pairs in the order
they are written. -/
abbrev StructTag := List (String × String)

/-- `reflect.StructTag.Get`: the value of the first pair with the given key,
the empty string when the key is absent. -/
def StructTag.Get (tag : StructTag) (key : String) : String :=
  match tag with
  | [] => ""
  | (k, v) :: rest => if k = key then v else StructTag.Get rest key

/-- The static type of a struct field, as far as the builders look at it.
`basic k name` stands for any type whose kind `k` is none of `Ptr`, `Slice`,
`Struct`, with the text `name` that its `String` method returns; `slice elem`
is the unnamed slice type `[]elem` and `namedSlice name elem` a declared slice
type (`type Times []time.Time`) whose `String` method returns `name`;
`struct id` refers to a struct type by its index in a table of struct
declarations, so that a type may mention itself. -/
inductive GoType where
  | basic (k : Kind) (name : String)
  | ptr (elem : GoType)
  | slice (elem : GoType)
  | namedSlice (name : String) (elem : GoType)
  | struct (id : Nat)
  deriving DecidableEq, Repr

/-- `reflect.Type.Kind` on a field type. -/
def GoType.Kind : GoType → Kind
  | .basic k _ => k
  | .ptr _ => .Ptr
  | .slice _ => .Slice
  | .namedSlice _ _ => .Slice
  | .struct _ => .Struct

/-- `reflect.StructField`: the field name, the package path (empty exactly for
exported fields), the tag and the field type. -/
structure StructField where
  Name : String
  PkgPath : String
  Tag : StructTag
  Typ : GoType
  deriving DecidableEq, Repr

/-- `reflect.StructField.IsExported`. -/
def StructField.IsExported (f : StructField) : Bool := f.PkgPath = ""

/-- `strings.Join`. -/
def Join : List String → String → String
  | [], _ => ""
  | [a], _ => a
  | a :: b :: rest, sep => a ++ sep ++ Join (b :: rest) sep

/-! ## Package sqlq: values and their dynamic types -/

/-- A value held in an `interface{}` that the package only passes on to the
driver: `nil`, some datum (identified by its printed form), or the result of
`pq.Array` applied to a value. -/
inductive Value where
  | nil
  | data (repr : String)
  | array (v : Value)
  deriving DecidableEq, Repr

/-- `pq.Array`. -/
def pqArray (v : Value) : Value := .array v

/-- The dynamic type of a record argument as `reflect.TypeOf` reports it:
only the top level is inspected. `other k` is any type whose kind `k` is
neither `Ptr` nor `Struct`. -/
inductive RType where
  | struct (fields : List StructField)
  | ptr (elem : RType)
  | other (k : Kind)
  deriving DecidableEq, Repr

/-- A non-nil value passed as `obj`: a struct value with the runtime value of
each field, a non-nil pointer, a nil pointer of a given element type, or a
value of any other kind. -/
inductive Val where
  | struct (fields : List (StructField × Value))
  | ptr (target : Val)
  | nilPtr (elem : RType)
  | other (k : Kind) (v : Value)
  deriving DecidableEq, Repr

/-- An argument of type `interface{}` (`any`): `none` is the nil interface. -/
abbrev Obj := Option Val

/-- The dynamic type of a non-nil value. -/
def Val.Typ : Val → RType
  | .struct fields => .struct (fields.map Prod.fst)
  | .ptr target => .ptr target.Typ
  | .nilPtr elem => .ptr elem
  | .other k _ => .other k

/-- `reflect.TypeOf`: `none` (a nil `reflect.Type`) for the nil interface. -/
def TypeOf (obj : Obj) : Option RType := obj.map Val.Typ

/-- `reflect.Type.Kind`. -/
def RType.Kind : RType → Kind
  | .struct _ => .Struct
  | .ptr _ => .Ptr
  | .other k => k

/-- `reflect.Type.Elem`, which panics unless the type has an element type. -/
def RType.Elem : RType → Run RType
  | .ptr elem => .ok elem
  | _ => .panic "reflect: Elem of invalid type"

/-- The fields that `NumField` counts and `Field(i)` returns; both panic on a
type that is not a struct. -/
def RType.Fields : RType → Run (List StructField)
  | .struct fields => .ok fields
  | _ => .panic "reflect: NumField of non-struct type"

/-- The first lines of both statement builders: take the dynamic type and
step through one pointer. Calling `Kind` on a nil `reflect.Type` panics. -/
def derefType (obj : Obj) : Run RType :=
  match TypeOf obj with
  | none => .panic "runtime error: invalid memory address or nil pointer dereference"
  | some t => if t.Kind = .Ptr then t.Elem else .ok t

/-! ## Package sqlq: statement builders -/

/-- The loop of `generateInsertQuery` over the fields still to visit, with the
two slices built so far. -/
def insertLoop : List StructField → List String → List String → List String × List String
  | [], columns, placeholders => (columns, placeholders)
  | field :: rest, columns, placeholders =>
    let dbTag := field.Tag.Get "db"
    if dbTag ≠ "" then
      insertLoop rest (columns ++ [dbTag]) (placeholders ++ [":" ++ dbTag])
    else
      insertLoop rest columns placeholders

/-- Source: `generateInsertQuery`. -/
def generateInsertQuery (obj : Obj) (tableName : String) : Run String :=
  match derefType obj with
  | .ok t =>
    match t.Fields with
    | .ok fields =>
      let (columns, placeholders) := insertLoop fields [] []
      let columnsStr := Join columns ", "
      let placeholdersStr := Join placeholders ", "
      .ok ("INSERT INTO " ++ tableName ++ " (" ++ columnsStr ++ ") VALUES (" ++ placeholdersStr ++ ");")
    | .panic msg => .panic msg
    | .overflow => .overflow
  | .panic msg => .panic msg
  | .overflow => .overflow

/-- The loop of `generateUpdateQuery`. -/
def updateLoop (keyField : String) : List StructField → List String → List String
  | [], updateFields => updateFields
  | field :: rest, updateFields =>
    let dbTag := field.Tag.Get "db"
    if dbTag ≠ "" ∧ dbTag ≠ keyField then
      updateLoop keyField rest (updateFields ++ [dbTag ++ " = :" ++ dbTag])
    else
      updateLoop keyField rest updateFields

/-- Source: `generateUpdateQuery`. -/
def generateUpdateQuery (obj : Obj) (tableName : String) (keyField : String) : Run String :=
  match derefType obj with
  | .ok t =>
    match t.Fields with
    | .ok fields =>
      let updateFields := updateLoop keyField fields []
      let updateFieldsStr := Join updateFields ", "
      .ok ("UPDATE " ++ tableName ++ " SET " ++ updateFieldsStr ++ " WHERE " ++ keyField
        ++ " = :" ++ keyField ++ ";")
    | .panic msg => .panic msg
    | .overflow => .overflow
  | .panic msg => .panic msg
  | .overflow => .overflow

/-! ## Package sqlq: errors, key lookup and bound values -/

/-- An argument of `fmt.Errorf`: a string (verb `%q`) or the dynamic type of a
value (verb `%T`). -/
inductive FmtArg where
  | str (s : String)
  | type (t : Option RType)
  deriving DecidableEq, Repr

/-- Go `error` values that occur: the sentinel `sql.ErrNoRows`, any other error
of the driver, an error wrapping another one, and the errors this package
makes with `fmt.Errorf`. A nil `error` is `none : Option GoError`. -/
inductive GoError where
  | ErrNoRows
  | driver (msg : String)
  | wrap (msg : String) (inner : GoError)
  | errorf (format : String) (arg : FmtArg)
  deriving DecidableEq, Repr

/-- `errors.Is`: follow the chain of wrapped errors until one equals the
target. -/
def errorsIs : GoError → GoError → Bool
  | .wrap msg inner, target => decide (GoError.wrap msg inner = target) || errorsIs inner target
  | err, target => decide (err = target)

/-- `reflect.Value.Kind` of `reflect.ValueOf(obj)`: the zero `Value` (here
`none`) has kind `Invalid`. -/
def valueKind (v : Option Val) : Kind :=
  match v with
  | none => .Invalid
  | some val => val.Typ.Kind

/-- `reflect.Value.Elem` on a pointer: the target, or the zero `Value` for a
nil pointer. -/
def valueElem (v : Option Val) : Run (Option Val) :=
  match v with
  | some (.ptr target) => .ok (some target)
  | some (.nilPtr _) => .ok none
  | _ => .panic "reflect: call of reflect.Value.Elem on non-pointer Value"

/-- The loop of `getFieldValueByTag`: the first field whose `db` tag equals
`tagName` is returned through `Interface()`, which panics on a field that is
not exported; the error after the loop when no field matched. -/
def lookupLoop (tagName : String) : List (StructField × Value) → Run (Value × Option GoError)
  | [] => .ok (.nil, some (.errorf "no field with db tag %q found" (.str tagName)))
  | (field, val) :: rest =>
    if field.Tag.Get "db" = tagName then
      if field.IsExported then .ok (val, none)
      else .panic "reflect.Value.Interface: cannot return value obtained from unexported field or method"
    else lookupLoop tagName rest

/-- Source: `getFieldValueByTag`. The result pairs the returned value with
the returned error. -/
def getFieldValueByTag (obj : Obj) (tagName : String) : Run (Value × Option GoError) :=
  let v : Option Val := obj
  match (if valueKind v = .Ptr then valueElem v else .ok v) with
  | .ok v =>
    if valueKind v ≠ .Struct then
      .ok (.nil, some (.errorf "expected a struct or a pointer to a struct, got %T" (.type (TypeOf obj))))
    else
      match v with
      | some (.struct fields) => lookupLoop tagName fields
      | _ => .panic "reflect: NumField of non-struct type"
  | .panic msg => .panic msg
  | .overflow => .overflow

/-- A Go `map[string]interface{}`: the entries, each key once. -/
abbrev ValuesMap := List (String × Value)

/-- The assignment `m[key] = val`. -/
def ValuesMap.set : ValuesMap → String → Value → ValuesMap
  | [], key, val => [(key, val)]
  | (k, v) :: rest, key, val =>
    if k = key then (k, val) :: rest else (k, v) :: ValuesMap.set rest key val

/-- The index expression `m[key]` with the comma-ok result. -/
def ValuesMap.get : ValuesMap → String → Option Value
  | [], _ => none
  | (k, v) :: rest, key => if k = key then some v else ValuesMap.get rest key

/-- The loop of `getValuesMap` over the fields still to visit. -/
def valuesLoop (obj : Obj) : List StructField → ValuesMap → Run ValuesMap
  | [], m => .ok m
  | field :: rest, m =>
    let tagName := field.Tag.Get "db"
    if tagName = "" then valuesLoop obj rest m
    else
      match getFieldValueByTag obj tagName with
      | .ok (val, _) =>
        let val := if field.Typ.Kind = .Slice then pqArray val else val
        valuesLoop obj rest (m.set tagName val)
      | .panic msg => .panic msg
      | .overflow => .overflow

/-- Source: `getValuesMap`. The type is not stepped through a pointer here. -/
def getValuesMap (obj : Obj) : Run ValuesMap :=
  match TypeOf obj with
  | none => .panic "runtime error: invalid memory address or nil pointer dereference"
  | some t =>
    match t.Fields with
    | .ok fields => valuesLoop obj fields []
    | .panic msg => .panic msg
    | .overflow => .overflow

/-! ## Package sqlq: the transaction and the row operations -/

/-- A call made on the transaction: the existence query with its argument, or
a write statement with its named values. -/
inductive Call where
  | QueryRowx (query : String) (arg : Value)
  | NamedExec (query : String) (arg : ValuesMap)
  deriving DecidableEq, Repr

/-- The transaction handle `*sqlx.Tx`: the calls made on it so far (oldest
first) and how the driver answers a call given that history. `Scan` is the
error of `tx.QueryRowx(query, val).Scan(&exists)`, `NamedExec` the error of
`tx.NamedExec(query, valuesMap)`. -/
structure Tx where
  log : List Call
  Scan : List Call → String → Value → Option GoError
  NamedExec : List Call → String → ValuesMap → Option GoError

/-- The transaction after one more call. -/
def Tx.record (tx : Tx) (c : Call) : Tx := { tx with log := tx.log ++ [c] }

/-- Whether a call is a write statement. -/
def Call.isWrite : Call → Bool
  | .NamedExec _ _ => true
  | .QueryRowx _ _ => false

/-- The write statements among the calls made on the transaction. -/
def Tx.writes (tx : Tx) : List Call := tx.log.filter Call.isWrite

/-- Source: `AddRow`. -/
def AddRow (tx : Tx) (object : Obj) (tableName : String) : Run (Option GoError) × Tx :=
  match generateInsertQuery object tableName with
  | .ok query =>
    match getValuesMap object with
    | .ok valuesMap =>
      (.ok (tx.NamedExec tx.log query valuesMap), tx.record (.NamedExec query valuesMap))
    | .panic msg => (.panic msg, tx)
    | .overflow => (.overflow, tx)
  | .panic msg => (.panic msg, tx)
  | .overflow => (.overflow, tx)

/-- Source: `UpdateRow`. -/
def UpdateRow (tx : Tx) (object : Obj) (tableName : String) (keyField : String) :
    Run (Option GoError) × Tx :=
  match generateUpdateQuery object tableName keyField with
  | .ok query =>
    match getValuesMap object with
    | .ok valuesMap =>
      (.ok (tx.NamedExec tx.log query valuesMap), tx.record (.NamedExec query valuesMap))
    | .panic msg => (.panic msg, tx)
    | .overflow => (.overflow, tx)
  | .panic msg => (.panic msg, tx)
  | .overflow => (.overflow, tx)

/-- Source: `Exists`. -/
def Exists (tx : Tx) (tableName : String) (fieldName : String) (val : Value) :
    (Bool × Option GoError) × Tx :=
  let query := "SELECT 1 FROM " ++ tableName ++ " WHERE " ++ fieldName ++ " = $1 LIMIT 1;"
  let err := tx.Scan tx.log query val
  let tx := tx.record (.QueryRowx query val)
  match err with
  | some e => if errorsIs e .ErrNoRows then ((false, none), tx) else ((true, err), tx)
  | none => ((true, err), tx)

/-- The operation kind constant `update`. -/
def update : String := "update"

/-- The operation kind constant `insert`. -/
def insert : String := "insert"

/-- Source: `UpsertRow`. The result pairs `opType` with `err`. -/
def UpsertRow (tx : Tx) (object : Obj) (tableName : String) (keyField : String) :
    Run (String × Option GoError) × Tx :=
  match getFieldValueByTag object keyField with
  | .ok (keyValue, err) =>
    match err with
    | some e => (.ok ("", some e), tx)
    | none =>
      match Exists tx tableName keyField keyValue with
      | ((_, some e), tx) => (.ok ("", some e), tx)
      | ((isThere, none), tx) =>
        if isThere then
          match UpdateRow tx object tableName keyField with
          | (.ok err, tx) => (.ok (update, err), tx)
          | (.panic msg, tx) => (.panic msg, tx)
          | (.overflow, tx) => (.overflow, tx)
        else
          match AddRow tx object tableName with
          | (.ok err, tx) => (.ok (insert, err), tx)
          | (.panic msg, tx) => (.panic msg, tx)
          | (.overflow, tx) => (.overflow, tx)
  | .panic msg => (.panic msg, tx)
  | .overflow => (.overflow, tx)

/-! ## Package graphql: the query builder -/

/-- A struct type: what `Name` and `String` return for it, and its fields in
declaration order. -/
structure StructDecl where
  Name : String
  Str : String
  Fields : List StructField
  deriving DecidableEq, Repr

/-- The struct types of a program, by index. -/
abbrev Decls := Nat → StructDecl

/-- `reflect.Type.String`. -/
def GoType.Str (decls : Decls) : GoType → String
  | .basic _ name => name
  | .ptr elem => "*" ++ GoType.Str decls elem
  | .slice elem => "[]" ++ GoType.Str decls elem
  | .namedSlice name _ => name
  | .struct id => (decls id).Str

/-- `reflect.Type.Name`: the declared name of a struct type, empty for unnamed
pointer and slice types. `BuildQuery` reads it only after `getStructFields`
has returned, that is, for a struct type. -/
def GoType.Name (decls : Decls) : GoType → String
  | .basic _ name => name
  | .ptr _ => ""
  | .slice _ => ""
  | .namedSlice name _ => name
  | .struct id => (decls id).Name

/-- `reflect.Type.Elem` on a field type. -/
def GoType.Elem : GoType → Run GoType
  | .ptr elem => .ok elem
  | .slice elem => .ok elem
  | .namedSlice _ elem => .ok elem
  | _ => .panic "reflect: Elem of invalid type"

/-- The fields that `NumField` and `Field(i)` range over; both panic on a
type that is not a struct. -/
def GoType.Fields (decls : Decls) : GoType → Run (List StructField)
  | .struct id => .ok (decls id).Fields
  | _ => .panic "reflect: NumField of non-struct type"

/-- `strings.HasPrefix`. -/
def HasPrefix (s : String) (pre : String) : Bool := pre.data.isPrefixOf s.data

/-- `strings.Repeat` for a count that is not negative. -/
def Repeat (s : String) : Nat → String
  | 0 => ""
  | n + 1 => s ++ Repeat s n

/-- The line of a field rendered as a leaf: `fmt.Sprintf("%s%s", indent, tag)`. -/
def leafLine (indent tag : String) : String := indent ++ tag

/-- The text of a field rendered as a block:
`fmt.Sprintf("%s%s {\n%s%s\n%s}", indent, tag, nestedFields, indent, indent)`. -/
def blockText (indent tag nestedFields : String) : String :=
  indent ++ tag ++ " \x7b\n" ++ nestedFields ++ indent ++ "\n" ++ indent ++ "\x7d"

/-- The loop of `getStructFields` over the fields still to visit, with the
slice `fields` built so far; `recur` is the recursive call. -/
def fieldsLoop (decls : Decls) (recur : GoType → Nat → Run String) (indentLevel : Nat)
    (indent : String) : List StructField → List String → Run (List String)
  | [], fields => .ok fields
  | field :: rest, fields =>
    let tag := field.Tag.Get "gql"
    if tag ≠ "" then
      if field.Typ.Kind = .Slice then
        match field.Typ.Elem with
        | .ok elem =>
          if elem.Kind = .Struct then
            if HasPrefix (elem.Str decls) "null." then
              fieldsLoop decls recur indentLevel indent rest (fields ++ [leafLine indent tag])
            else
              match recur elem (indentLevel + 1) with
              | .ok nestedFields =>
                fieldsLoop decls recur indentLevel indent rest
                  (fields ++ [blockText indent tag nestedFields])
              | .panic msg => .panic msg
              | .overflow => .overflow
          else
            fieldsLoop decls recur indentLevel indent rest (fields ++ [leafLine indent tag])
        | .panic msg => .panic msg
        | .overflow => .overflow
      else if field.Typ.Kind = .Struct then
        if HasPrefix (field.Typ.Str decls) "null." then
          fieldsLoop decls recur indentLevel indent rest (fields ++ [leafLine indent tag])
        else
          match recur field.Typ (indentLevel + 1) with
          | .ok nestedFields =>
            fieldsLoop decls recur indentLevel indent rest
              (fields ++ [blockText indent tag nestedFields])
          | .panic msg => .panic msg
          | .overflow => .overflow
      else
        fieldsLoop decls recur indentLevel indent rest (fields ++ [leafLine indent tag])
    else
      fieldsLoop decls recur indentLevel indent rest fields

/-- Source: `getStructFields`. The first argument bounds the depth of the
recursion: each call uses one unit, and a call with none left overflows. -/
def getStructFields (decls : Decls) : Nat → GoType → Nat → Run String
  | 0, _, _ => .overflow
  | fuel + 1, t, indentLevel =>
    let indent := Repeat "\t" indentLevel
    match t.Fields decls with
    | .ok structFields =>
      match fieldsLoop decls (getStructFields decls fuel) indentLevel indent structFields [] with
      | .ok fields => .ok (Join fields "\n")
      | .panic msg => .panic msg
      | .overflow => .overflow
    | .panic msg => .panic msg
    | .overflow => .overflow

/-- Source: `BuildQuery`, with the recursion budget given to `getStructFields`. -/
def BuildQuery (decls : Decls) (fuel : Nat) (objectType : GoType) (filterType : String) :
    Run String :=
  let filter := if filterType ≠ "" then ", $filter: " ++ filterType ++ "!" else ""
  let fconst := if filterType ≠ "" then ", filter: $filter" else ""
  match getStructFields decls fuel objectType 2 with
  | .ok fields =>
    .ok ("\nquery ($after: Int, $limit: Int" ++ filter ++ ") \x7b\n\t" ++ objectType.Name decls
      ++ "(after: $after, limit: $limit" ++ fconst ++ ") \x7b\n" ++ fields ++ "\n\t\x7d\n\x7d")
  | .panic msg => .panic msg
  | .overflow => .overflow

/-! ## Package graphql: the scalar wrappers of `type.go` -/

/-- `strings.TrimLeft`: drop the leading characters that are in the cutset. -/
def TrimLeft (s cutset : String) : String :=
  ⟨s.data.dropWhile (fun c => cutset.data.contains c)⟩

/-- `strings.TrimRight`: drop the trailing characters that are in the cutset. -/
def TrimRight (s cutset : String) : String :=
  ⟨(s.data.reverse.dropWhile (fun c => cutset.data.contains c)).reverse⟩

/-- `strings.Contains`. -/
def Contains (s substr : String) : Bool := decide (substr.data <:+: s.data)

/-- `sql.NullTime` over a type `τ` of time values: the fields `Time` and
`Valid` that `YyyyMmDdHhMmSs` embeds. -/
structure NullTime (τ : Type) where
  Time : τ
  Valid : Bool
  deriving DecidableEq, Repr

/-- `sql.NullString`, which `ArrayToString` embeds through `null.String`: the
fields `String` (here `Str`) and `Valid`. -/
structure NullString where
  Str : String
  Valid : Bool
  deriving DecidableEq, Repr

/-- Source: `(*YyyyMmDdHhMmSs).UnmarshalJSON`. `Parse` is `time.Parse`, taking
the layout and the value; the result is the receiver after the call and the
returned error. -/
def YyyyMmDdHhMmSs.UnmarshalJSON {τ : Type} (Parse : String → String → Except String τ)
    (date : NullTime τ) (data : String) : NullTime τ × Option String :=
  let str := TrimRight (TrimLeft data "\"") "\""
  if str = "null" ∨ str = "" then (date, none)
  else
    let layout := if Contains str "T" then "2006-01-02T15:04:05" else "2006-01-02 15:04:05"
    match Parse layout str with
    | .error err => (date, some err)
    | .ok t => ({ date with Time := t }, none)

/-- Source: `(*ArrayToString).UnmarshalJSON`; the result is the receiver after
the call and the returned error. -/
def ArrayToString.UnmarshalJSON (arr : NullString) (data : String) : NullString × Option String :=
  let str := data
  if str = "null" ∨ str = "" then ({ arr with Valid := false }, none)
  else
    let arr : NullString := { Str := TrimRight (TrimLeft str "\"") "\"", Valid := false }
    ({ arr with Valid := true }, none)

/-! ## Reading the claims: names used to state them -/

/-- The non-empty `db` tags of a list of fields, in declaration order. -/
def dbTags (fields : List StructField) : List String :=
  (fields.map (fun f => f.Tag.Get "db")).filter (fun c => c ≠ "")

/-- The fields of the scenario record `ID db:"id"`, `Name db:"name"`, `Units`
(no `db` tag), with runtime values. -/
def contractFields : List (StructField × Value) :=
  [ (⟨"ID", "", [("db", "id"), ("gql", "id")], .basic .Int "int"⟩, .data "7"),
    (⟨"Name", "", [("db", "name"), ("gql", "name")], .basic .String "string"⟩, .data "acme"),
    (⟨"Units", "", [("gql", "units")], .slice (.struct 1)⟩, .data "[]") ]

/-- The struct types of the scenario: `Contract` (index 0) with the fields
above and `Unit` (index 1) with the single field `ID gql:"id"`. -/
def scenarioDecls : Decls := fun id =>
  match id with
  | 0 => ⟨"Contract", "graphql.Contract", contractFields.map Prod.fst⟩
  | _ => ⟨"Unit", "graphql.Unit", [⟨"ID", "", [("gql", "id")], .basic .Int "int"⟩]⟩

/-- The operation header the claims describe, for a filter type name. -/
def queryHeader (f : String) : String :=
  if f = "" then "query ($after: Int, $limit: Int) \x7b"
  else "query ($after: Int, $limit: Int, $filter: " ++ f ++ "!) \x7b"

/-- The arguments of the root selection the claims describe. -/
def rootArguments (f : String) : String :=
  if f = "" then "(after: $after, limit: $limit)"
  else "(after: $after, limit: $limit, filter: $filter)"

/-- A text occurs in another one. -/
def occursIn (sub s : String) : Prop := ∃ a b : String, s = a ++ sub ++ b

/-- A transaction on which no call has been made yet, with a driver that
answers every call without error: the existence query finds a row and every
write succeeds. -/
def freshTx : Tx := ⟨[], fun _ _ _ => none, fun _ _ _ => none⟩

/-- A transaction on which no call has been made yet, with a driver whose
existence query finds no row and whose writes fail. -/
def failingTx : Tx :=
  ⟨[], fun _ _ _ => some .ErrNoRows, fun _ _ _ => some (.driver "duplicate key")⟩

/-- The record argument is neither a struct value nor a pointer to a struct
value: the nil interface, a nil pointer, a pointer to something that is not a
struct, or a value of a kind other than `Ptr` and `Struct`. -/
def notARecord : Obj → Bool
  | none => true
  | some (.nilPtr _) => true
  | some (.ptr target) => decide (target.Typ.Kind ≠ .Struct)
  | some (.other k _) => decide (k ≠ .Ptr ∧ k ≠ .Struct)
  | some (.struct _) => false

/-- The text of the existence query of `Exists`. -/
def existsQuery (tableName fieldName : String) : String :=
  "SELECT 1 FROM " ++ tableName ++ " WHERE " ++ fieldName ++ " = $1 LIMIT 1;"

/-- Delete from a list the elements that satisfy `p` and stand at a marked
position; positions count from `i`. -/
def deleteMarked {α : Type} (p : α → Bool) (del : Nat → Bool) : Nat → List α → List α
  | _, [] => []
  | i, a :: rest =>
    if del i && p a then deleteMarked p del (i + 1) rest
    else a :: deleteMarked p del (i + 1) rest

/-- The struct types after deleting, in every struct type `id`, the fields
without `gql` tag that stand at the positions marked by `del id`; names and
the remaining fields are kept. -/
def deleteUntaggedGql (del : Nat → Nat → Bool) (decls : Decls) : Decls := fun id =>
  { decls id with
    Fields := deleteMarked (fun f => decide (f.Tag.Get "gql" = "")) (del id) 0 (decls id).Fields }

/-- The record after deleting the fields without `db` tag that stand at the
marked positions. -/
def deleteUntaggedDb (del : Nat → Bool) (fields : List (StructField × Value)) :
    List (StructField × Value) :=
  deleteMarked (fun f => decide (f.1.Tag.Get "db" = "")) del 0 fields

/-- Two fields that differ at most in what their tags hold under `key`. -/
def differOnlyInTag (key : String) (a b : StructField) : Prop :=
  a.Name = b.Name ∧ a.PkgPath = b.PkgPath ∧ a.Typ = b.Typ ∧
    ∀ k, k ≠ key → a.Tag.Get k = b.Tag.Get k

/-- A tagged field reduced to what `getStructFields` reads of it: the `gql`
tag and the type; nothing for a field without `gql` tag. -/
def gqlCanon (f : StructField) : Option StructField :=
  if f.Tag.Get "gql" ≠ "" then some ⟨"", "", [("gql", f.Tag.Get "gql")], f.Typ⟩ else none

/-- The scenario struct types with every `db` tag removed. -/
def scenarioDeclsNoDb : Decls := fun id =>
  match id with
  | 0 => ⟨"Contract", "graphql.Contract",
      [ ⟨"ID", "", [("gql", "id")], .basic .Int "int"⟩,
        ⟨"Name", "", [("gql", "name")], .basic .String "string"⟩,
        ⟨"Units", "", [("gql", "units")], .slice (.struct 1)⟩ ]⟩
  | _ => ⟨"Unit", "graphql.Unit", [⟨"ID", "", [("gql", "id")], .basic .Int "int"⟩]⟩

/-- The scenario record with every `gql` tag removed. -/
def contractFieldsNoGql : List (StructField × Value) :=
  [ (⟨"ID", "", [("db", "id")], .basic .Int "int"⟩, .data "7"),
    (⟨"Name", "", [("db", "name")], .basic .String "string"⟩, .data "acme"),
    (⟨"Units", "", [], .slice (.struct 1)⟩, .data "[]") ]

/-- What one field adds to the slice `fields` in the loop of
`getStructFields`: nothing for a field without `gql` tag, otherwise its leaf
line or its block text. -/
def fieldEntry (decls : Decls) (recur : GoType → Nat → Run String) (indentLevel : Nat)
    (indent : String) (field : StructField) : Run (Option String) :=
  let tag := field.Tag.Get "gql"
  if tag ≠ "" then
    if field.Typ.Kind = .Slice then
      match field.Typ.Elem with
      | .ok elem =>
        if elem.Kind = .Struct then
          if HasPrefix (elem.Str decls) "null." then .ok (some (leafLine indent tag))
          else
            match recur elem (indentLevel + 1) with
            | .ok nestedFields => .ok (some (blockText indent tag nestedFields))
            | .panic msg => .panic msg
            | .overflow => .overflow
        else .ok (some (leafLine indent tag))
      | .panic msg => .panic msg
      | .overflow => .overflow
    else if field.Typ.Kind = .Struct then
      if HasPrefix (field.Typ.Str decls) "null." then .ok (some (leafLine indent tag))
      else
        match recur field.Typ (indentLevel + 1) with
        | .ok nestedFields => .ok (some (blockText indent tag nestedFields))
        | .panic msg => .panic msg
        | .overflow => .overflow
    else .ok (some (leafLine indent tag))
  else .ok none

/-- Struct types with an optional wrapper: `Row` (index 0) has the fields
`Note null.String gql:"note"` and `Tags []null.String gql:"tags"`; the
wrapper `null.String` (index 1) is itself a struct with a tagged field. -/
def wrapperDecls : Decls := fun id =>
  match id with
  | 0 => ⟨"Row", "graphql.Row",
      [ ⟨"Note", "", [("gql", "note")], .struct 1⟩,
        ⟨"Tags", "", [("gql", "tags")], .slice (.struct 1)⟩ ]⟩
  | _ => ⟨"String", "null.String",
      [⟨"NullString", "", [("gql", "inner")], .struct 1⟩]⟩

/-- The scenario struct types with the fields of `Contract` split: index 2
holds `ID` and `Name`, index 3 holds `Units`, index 0 holds all three and
index 1 is `Unit`. -/
def splitDecls : Decls := fun id =>
  match id with
  | 2 => ⟨"Head", "graphql.Head", (contractFields.map Prod.fst).take 2⟩
  | 3 => ⟨"Tail", "graphql.Tail", (contractFields.map Prod.fst).drop 2⟩
  | n => scenarioDecls n

/-- The key values a table holds after the calls of a history: those stored
at first and, for every insert statement executed since, the value bound to
the key field. -/
def storedKeys (keyField : String) (stored : List Value) (log : List Call) : List Value :=
  stored ++ log.filterMap (fun c =>
    match c with
    | .NamedExec query arg => if HasPrefix query "INSERT INTO " then arg.get keyField else none
    | .QueryRowx _ _ => none)

/-- A transaction on a table held as the list of its stored key values: the
existence query finds a row exactly for a stored key and reports no rows
otherwise, every write succeeds, and an insert stores the key of its record. -/
def tableTx (keyField : String) (stored : List Value) : Tx :=
  ⟨[], fun log _ val => if val ∈ storedKeys keyField stored log then none else some .ErrNoRows,
    fun _ _ _ => none⟩

/-- A record whose two fields carry the same `db` tag: `A []int db:"x"` and
`B int db:"x"`. -/
def twinFields : List (StructField × Value) :=
  [ (⟨"A", "", [("db", "x")], .slice (.basic .Int "int")⟩, .data "[1]"),
    (⟨"B", "", [("db", "x")], .basic .Int "int"⟩, .data "2") ]

/-- A record whose tagged field `id int db:"id"` is not exported. -/
def hiddenFields : List (StructField × Value) :=
  [ (⟨"id", "repo", [("db", "id")], .basic .Int "int"⟩, .data "7") ]

/-- A record without any `db` tag: the single field `Units []Unit gql:"units"`. -/
def unitsOnlyFields : List (StructField × Value) :=
  [ (⟨"Units", "", [("gql", "units")], .slice (.struct 1)⟩, .data "[]") ]

/-- The value bound for a field: wrapped by `pq.Array` exactly when the field
is slice-typed. -/
def boundValue (p : StructField × Value) : Value :=
  if p.1.Typ.Kind = .Slice then pqArray p.2 else p.2

/-- Struct types that use the wrappers of `type.go`: `Event` (index 0) with
`At YyyyMmDdHhMmSs gql:"at"` and `Tags ArrayToString gql:"tags"`; the wrapper
`YyyyMmDdHhMmSs` (index 1) embeds `sql.NullTime` (index 3), `ArrayToString`
(index 2) embeds `null.String` (index 4); none of their fields has a tag. -/
def eventDecls : Decls := fun id =>
  match id with
  | 0 => ⟨"Event", "graphql.Event",
      [ ⟨"At", "", [("gql", "at")], .struct 1⟩,
        ⟨"Tags", "", [("gql", "tags")], .struct 2⟩ ]⟩
  | 1 => ⟨"YyyyMmDdHhMmSs", "graphql.YyyyMmDdHhMmSs", [⟨"NullTime", "", [], .struct 3⟩]⟩
  | 2 => ⟨"ArrayToString", "graphql.ArrayToString", [⟨"String", "", [], .struct 4⟩]⟩
  | 3 => ⟨"NullTime", "sql.NullTime",
      [ ⟨"Time", "", [], .struct 5⟩, ⟨"Valid", "", [], .basic .Bool "bool"⟩ ]⟩
  | 4 => ⟨"String", "null.String", [⟨"NullString", "", [], .struct 6⟩]⟩
  | 5 => ⟨"Time", "time.Time", []⟩
  | _ => ⟨"NullString", "sql.NullString",
      [ ⟨"String", "", [], .basic .String "string"⟩, ⟨"Valid", "", [], .basic .Bool "bool"⟩ ]⟩

/-- A struct type with a field whose type is a slice of that same type:
`Node` (index 0) with `ID int gql:"id"` and `Children []Node gql:"children"`. -/
def nodeDecls : Decls := fun _ =>
  ⟨"Node", "graphql.Node",
    [ ⟨"ID", "", [("gql", "id")], .basic .Int "int"⟩,
      ⟨"Children", "", [("gql", "children")], .slice (.struct 0)⟩ ]⟩

/-- The number of tabs a line starts with. -/
def leadingTabs (line : String) : Nat := (line.data.takeWhile (fun c => c = '\t')).length

/-- A `time.Parse` for the example: it accepts the value
`2024-01-02 03:04:05` in the layout with a blank and returns the instant
named by the text `2024-01-02T03:04:05Z`. -/
def sampleParse (layout value : String) : Except String String :=
  if layout = "2006-01-02 15:04:05" ∧ value = "2024-01-02 03:04:05" then .ok "2024-01-02T03:04:05Z"
  else .error "parsing time: cannot parse"

/-- Struct types with a field of a declared slice type named in a package
`null`: `Row` (index 0) has `Times null.Times gql:"times"` where
`type Times []time.Time`; `time.Time` (index 1) has only unexported fields
without tags. -/
def timesDecls : Decls := fun id =>
  match id with
  | 0 => ⟨"Row", "graphql.Row",
      [⟨"Times", "", [("gql", "times")], .namedSlice "null.Times" (.struct 1)⟩]⟩
  | 1 => ⟨"Time", "time.Time",
      [ ⟨"wall", "time", [], .basic .Uint64 "uint64"⟩,
        ⟨"ext", "time", [], .basic .Int64 "int64"⟩,
        ⟨"loc", "time", [], .ptr (.struct 2)⟩ ]⟩
  | _ => ⟨"Location", "time.Location", []⟩

/-- Apply a function to the value a call returns. -/
def Run.map {α β : Type} (f : α → β) : Run α → Run β
  | .ok a => .ok (f a)
  | .panic msg => .panic msg
  | .overflow => .overflow

/-- The type whose fields are listed below a tagged field: the element type
of a slice of structs, or the struct type of the field itself, unless that
struct type is named with the prefix `null.`; nothing for any other field. -/
def nestedType (decls : Decls) (field : StructField) : Run (Option GoType) :=
  if field.Typ.Kind = .Slice then
    match field.Typ.Elem with
    | .ok elem =>
      if elem.Kind = .Struct ∧ HasPrefix (elem.Str decls) "null." = false then .ok (some elem)
      else .ok none
    | .panic msg => .panic msg
    | .overflow => .overflow
  else if field.Typ.Kind = .Struct ∧ HasPrefix (field.Typ.Str decls) "null." = false then
    .ok (some field.Typ)
  else .ok none

/-- The pre-order traversal of a list of fields: each field with a `gql` tag
in declaration order, its tag first, then the traversal `below` of the type
listed under it, then the fields after it. -/
def tagsLoop (decls : Decls) (below : GoType → Run (List String)) :
    List StructField → Run (List String)
  | [] => .ok []
  | field :: rest =>
    if field.Tag.Get "gql" = "" then tagsLoop decls below rest
    else
      match nestedType decls field with
      | .ok none => (tagsLoop decls below rest).map (fun r => field.Tag.Get "gql" :: r)
      | .ok (some t) =>
        match below t with
        | .ok nested =>
          (tagsLoop decls below rest).map (fun r => field.Tag.Get "gql" :: (nested ++ r))
        | .panic msg => .panic msg
        | .overflow => .overflow
      | .panic msg => .panic msg
      | .overflow => .overflow

/-- The pre-order traversal of the `gql` tags of a struct type, with the same
recursion budget as `getStructFields`. -/
def preorderTags (decls : Decls) : Nat → GoType → Run (List String)
  | 0, _ => .overflow
  | fuel + 1, t =>
    match t.Fields decls with
    | .ok structFields => tagsLoop decls (preorderTags decls fuel) structFields
    | .panic msg => .panic msg
    | .overflow => .overflow

/-- The lines of a text: the pieces between its newline characters. -/
def splitLines : List Char → List (List Char)
  | [] => [[]]
  | c :: cs =>
    if c = '\n' then [] :: splitLines cs
    else
      match splitLines cs with
      | [] => [[c]]
      | l :: ls => (c :: l) :: ls

/-- The tag name read off one line: the line without its tabs, unless that is
empty or the closing brace, and without the blank and opening brace at its
end if it has them. -/
def lineTag (line : List Char) : Option String :=
  let core := line.filter (fun c => c ≠ '\t')
  if core = [] ∨ core = ['\x7d'] then none
  else if [' ', '\x7b'] <:+ core then some ⟨core.take (core.length - 2)⟩
  else some ⟨core⟩

/-- The tag names read off the lines of a text, top to bottom. -/
def readTags (text : String) : List String := (splitLines text.data).filterMap lineTag

/-- A tag without tab, newline and brace characters. -/
def cleanTag (tag : String) : Prop :=
  ∀ c ∈ tag.data, c ≠ '\t' ∧ c ≠ '\n' ∧ c ≠ '\x7b' ∧ c ≠ '\x7d'

instance cleanTagDecidable (tag : String) : Decidable (cleanTag tag) := by
  unfold cleanTag
  infer_instance

/-- Append a text to the last of a list of lines. -/
def appendLast : List (List Char) → List Char → List (List Char)
  | [], t => [t]
  | [l], t => [l ++ t]
  | l :: l2 :: rest, t => l :: appendLast (l2 :: rest) t

/-! ## Lemmas on the statement builders -/

theorem insertLoop_eq (fields : List StructField) (columns placeholders : List String) :
    insertLoop fields columns placeholders =
      (columns ++ dbTags fields, placeholders ++ (dbTags fields).map (fun c => ":" ++ c)) := by
  induction fields generalizing columns placeholders with
  | nil => simp [insertLoop, dbTags]
  | cons f rest ih =>
    by_cases h : f.Tag.Get "db" = ""
    · simp [insertLoop, dbTags, h, ih]
    · simp [insertLoop, dbTags, h, ih]

theorem updateLoop_eq (keyField : String) (fields : List StructField) (acc : List String) :
    updateLoop keyField fields acc =
      acc ++ ((dbTags fields).filter (fun c => c ≠ keyField)).map (fun c => c ++ " = :" ++ c) := by
  induction fields generalizing acc with
  | nil => simp [updateLoop, dbTags]
  | cons f rest ih =>
    by_cases h : f.Tag.Get "db" = ""
    · simp [updateLoop, dbTags, h, ih]
    · by_cases hk : f.Tag.Get "db" = keyField
      · simp [updateLoop, dbTags, h, hk, ih]
      · simp [updateLoop, dbTags, h, hk, ih]

theorem generateInsertQuery_struct (fields : List (StructField × Value)) (tableName : String) :
    generateInsertQuery (some (.struct fields)) tableName =
      .ok ("INSERT INTO " ++ tableName ++ " (" ++ Join (dbTags (fields.map Prod.fst)) ", "
        ++ ") VALUES (" ++ Join ((dbTags (fields.map Prod.fst)).map (fun c => ":" ++ c)) ", "
        ++ ");") ∧
    generateInsertQuery (some (.ptr (.struct fields))) tableName =
      generateInsertQuery (some (.struct fields)) tableName := by
  constructor
  · simp [generateInsertQuery, derefType, TypeOf, Val.Typ, RType.Kind, RType.Fields,
      insertLoop_eq]
  · simp [generateInsertQuery, derefType, TypeOf, Val.Typ, RType.Kind, RType.Fields,
      RType.Elem]

theorem generateUpdateQuery_struct (fields : List (StructField × Value))
    (tableName keyField : String) :
    generateUpdateQuery (some (.struct fields)) tableName keyField =
      .ok ("UPDATE " ++ tableName ++ " SET "
        ++ Join (((dbTags (fields.map Prod.fst)).filter (fun c => c ≠ keyField)).map
            (fun c => c ++ " = :" ++ c)) ", "
        ++ " WHERE " ++ keyField ++ " = :" ++ keyField ++ ";") ∧
    generateUpdateQuery (some (.ptr (.struct fields))) tableName keyField =
      generateUpdateQuery (some (.struct fields)) tableName keyField := by
  constructor
  · simp [generateUpdateQuery, derefType, TypeOf, Val.Typ, RType.Kind, RType.Fields,
      updateLoop_eq]
  · simp [generateUpdateQuery, derefType, TypeOf, Val.Typ, RType.Kind, RType.Fields,
      RType.Elem]

theorem assign_injective {c k : String} (h : c ++ " = :" ++ c = k ++ " = :" ++ k) : c = k := by
  have hd : c.data ++ (" = :".data ++ c.data) = k.data ++ (" = :".data ++ k.data) := by
    have := congrArg String.data h
    simpa [String.data_append, List.append_assoc] using this
  have hl : c.data.length = k.data.length := by
    have := congrArg List.length hd
    simp only [List.length_append] at this
    omega
  exact String.ext (List.append_inj hd hl).1

/-! ## The statement builders (C1, C2) -/

/-- C1: for a struct value, a pointer to a struct value and a nil pointer to a
struct type alike, `generateInsertQuery` returns
`INSERT INTO <table> (<C>) VALUES (<P>);` where `C` joins the non-empty `db`
tags of the top-level fields in declaration order and `P` joins the same tags,
each with a colon in front; the scenario record with table `contracts` gives
`INSERT INTO contracts (id, name) VALUES (:id, :name);`. -/
theorem generateInsertQuery_text (fields : List (StructField × Value)) (tableName : String) :
    (generateInsertQuery (some (.struct fields)) tableName =
        .ok ("INSERT INTO " ++ tableName ++ " (" ++ Join (dbTags (fields.map Prod.fst)) ", "
          ++ ") VALUES (" ++ Join ((dbTags (fields.map Prod.fst)).map (fun c => ":" ++ c)) ", "
          ++ ");")) ∧
    (generateInsertQuery (some (.ptr (.struct fields))) tableName =
        generateInsertQuery (some (.struct fields)) tableName) ∧
    (generateInsertQuery (some (.nilPtr (.struct (fields.map Prod.fst)))) tableName =
        generateInsertQuery (some (.struct fields)) tableName) ∧
    generateInsertQuery (some (.struct contractFields)) "contracts" =
        .ok "INSERT INTO contracts (id, name) VALUES (:id, :name);" := by
  refine ⟨?_, ?_, ?_, by decide⟩
  · simp [generateInsertQuery, derefType, TypeOf, Val.Typ, RType.Kind, RType.Fields,
      insertLoop_eq]
  · simp [generateInsertQuery, derefType, TypeOf, Val.Typ, RType.Kind, RType.Fields,
      RType.Elem]
  · simp [generateInsertQuery, derefType, TypeOf, Val.Typ, RType.Kind, RType.Fields,
      RType.Elem]

/-- C2: `generateUpdateQuery` returns
`UPDATE <table> SET <A> WHERE <key> = :<key>;` where `A` joins `<col> = :<col>`
over the non-empty `db` tags different from the key field, in declaration
order, for struct values and pointers alike; the key column is not among the
columns of the SET list and its assignment is not in the list the code
builds; the scenario record with table `contracts` and key `id` gives
`UPDATE contracts SET name = :name WHERE id = :id;`. -/
theorem generateUpdateQuery_text (fields : List (StructField × Value))
    (tableName keyField : String) :
    (generateUpdateQuery (some (.struct fields)) tableName keyField =
        .ok ("UPDATE " ++ tableName ++ " SET "
          ++ Join (((dbTags (fields.map Prod.fst)).filter (fun c => c ≠ keyField)).map
              (fun c => c ++ " = :" ++ c)) ", "
          ++ " WHERE " ++ keyField ++ " = :" ++ keyField ++ ";")) ∧
    (generateUpdateQuery (some (.ptr (.struct fields))) tableName keyField =
        generateUpdateQuery (some (.struct fields)) tableName keyField) ∧
    (generateUpdateQuery (some (.nilPtr (.struct (fields.map Prod.fst)))) tableName keyField =
        generateUpdateQuery (some (.struct fields)) tableName keyField) ∧
    keyField ∉ (dbTags (fields.map Prod.fst)).filter (fun c => c ≠ keyField) ∧
    (keyField ++ " = :" ++ keyField) ∉ updateLoop keyField (fields.map Prod.fst) [] ∧
    generateUpdateQuery (some (.struct contractFields)) "contracts" "id" =
        .ok "UPDATE contracts SET name = :name WHERE id = :id;" := by
  refine ⟨?_, ?_, ?_, ?_, ?_, by decide⟩
  · simp [generateUpdateQuery, derefType, TypeOf, Val.Typ, RType.Kind, RType.Fields,
      updateLoop_eq]
  · simp [generateUpdateQuery, derefType, TypeOf, Val.Typ, RType.Kind, RType.Fields,
      RType.Elem]
  · simp [generateUpdateQuery, derefType, TypeOf, Val.Typ, RType.Kind, RType.Fields,
      RType.Elem]
  · simp
  · rw [updateLoop_eq]
    simp only [List.nil_append, List.mem_map, List.mem_filter, not_exists, not_and]
    intro c hc heq
    exact absurd (assign_injective heq) (by simpa using hc.2)

/-! ## The GraphQL document (C3, C4) -/

theorem occursIn_iff (sub s : String) : occursIn sub s ↔ sub.data <:+: s.data := by
  constructor
  · rintro ⟨a, b, rfl⟩
    exact ⟨a.data, b.data, by simp [String.data_append]⟩
  · rintro ⟨a, b, h⟩
    exact ⟨⟨a⟩, ⟨b⟩, String.ext (by simp [String.data_append, h])⟩

/-- C3: on the scenario type (`ID gql:"id"`, `Name gql:"name"`,
`Units []Unit gql:"units"`, `Unit` with `ID gql:"id"`) `getStructFields` at
depth 2, the depth `BuildQuery` uses, returns a body whose nested line `id` is
followed by two tabs before the newline that precedes the closing brace, so
the body is not the five lines `id`, `name`, `units {`, `id`, `}` without
trailing whitespace; `BuildQuery` embeds that body. -/
theorem getStructFields_scenario_trailing_tabs (fuel : Nat) :
    getStructFields scenarioDecls (fuel + 2) (.struct 0) 2
      = .ok "\t\tid\n\t\tname\n\t\tunits \x7b\n\t\t\tid\t\t\n\t\t\x7d" ∧
    getStructFields scenarioDecls (fuel + 2) (.struct 0) 2
      ≠ .ok "\t\tid\n\t\tname\n\t\tunits \x7b\n\t\t\tid\n\t\t\x7d" ∧
    BuildQuery scenarioDecls (fuel + 2) (.struct 0) ""
      = .ok ("\nquery ($after: Int, $limit: Int) \x7b\n\tContract(after: $after, limit: $limit) \x7b\n"
          ++ "\t\tid\n\t\tname\n\t\tunits \x7b\n\t\t\tid\t\t\n\t\t\x7d" ++ "\n\t\x7d\n\x7d") := by
  have h : getStructFields scenarioDecls (fuel + 2) (.struct 0) 2
      = .ok "\t\tid\n\t\tname\n\t\tunits \x7b\n\t\t\tid\t\t\n\t\t\x7d" := by
    cases fuel <;> rfl
  refine ⟨h, ?_, ?_⟩
  · rw [h]; decide
  · simp only [BuildQuery, h]; decide

/-- C4: `BuildQuery` returns, whenever `getStructFields` at depth 2 returns a
body, a newline, the header `query ($after: Int, $limit: Int) {` or, for a
non-empty filter type name `f`, `query ($after: Int, $limit: Int, $filter: f!) {`,
then the root selection made of the name of the type and the arguments
`(after: $after, limit: $limit)` or `(after: $after, limit: $limit, filter: $filter)`,
then the body and the two closing braces; `$filter` occurs in the root
arguments exactly when it is declared in the header, which is exactly when the
filter type name is not empty, and each of `$after`, `$limit`, `$filter` that
occurs in the root arguments is declared in the header. -/
theorem BuildQuery_shape (decls : Decls) (fuel : Nat) (T : GoType) (f : String) :
    BuildQuery decls fuel T f =
      (match getStructFields decls fuel T 2 with
       | .ok body =>
         .ok ("\n" ++ queryHeader f ++ "\n\t" ++ (T.Name decls ++ rootArguments f ++ " \x7b")
           ++ "\n" ++ body ++ "\n\t\x7d\n\x7d")
       | .panic msg => .panic msg
       | .overflow => .overflow) ∧
    (occursIn "$filter" (rootArguments f) ↔ occursIn "$filter: " (queryHeader f)) ∧
    (occursIn "$filter" (rootArguments f) ↔ f ≠ "") ∧
    (∀ v ∈ ["$after", "$limit", "$filter"],
      occursIn v (rootArguments f) → occursIn (v ++ ": ") (queryHeader f)) := by
  have hargs : occursIn "$filter" (rootArguments f) ↔ f ≠ "" := by
    by_cases hf : f = ""
    · subst hf
      simp only [rootArguments, if_true, occursIn_iff, ne_eq, not_true_eq_false, iff_false]
      decide
    · simp only [rootArguments, hf, if_false, occursIn_iff, ne_eq, not_false_eq_true, iff_true]
      decide
  have hhead : occursIn "$filter: " (queryHeader f) ↔ f ≠ "" := by
    by_cases hf : f = ""
    · subst hf
      simp only [queryHeader, if_true, occursIn_iff, ne_eq, not_true_eq_false, iff_false]
      decide
    · simp only [queryHeader, hf, if_false, ne_eq, not_false_eq_true, iff_true]
      exact ⟨"query ($after: Int, $limit: Int, ", f ++ "!) \x7b",
        String.ext (by simp [String.data_append])⟩
  refine ⟨?_, hargs.trans hhead.symm, hargs, ?_⟩
  · unfold BuildQuery
    cases getStructFields decls fuel T 2 with
    | ok body =>
      by_cases hf : f = ""
      · subst hf
        simp only [queryHeader, rootArguments, ne_eq, not_true_eq_false, if_false, if_true,
          Run.ok.injEq]
        exact String.ext (by simp [String.data_append])
      · simp only [queryHeader, rootArguments, ne_eq, hf, not_false_eq_true, if_false, if_true,
          Run.ok.injEq]
        exact String.ext (by simp [String.data_append])
    | panic msg => rfl
    | overflow => rfl
  · intro v hv hocc
    simp only [List.mem_cons, List.mem_singleton, List.not_mem_nil, or_false] at hv
    rcases hv with rfl | rfl | rfl
    · by_cases hf : f = ""
      · simp only [queryHeader, hf, if_true, occursIn_iff]; decide
      · simp only [queryHeader, hf, if_false]
        exact ⟨"query (", "Int, $limit: Int, $filter: " ++ f ++ "!) \x7b",
          String.ext (by simp [String.data_append])⟩
    · by_cases hf : f = ""
      · simp only [queryHeader, hf, if_true, occursIn_iff]; decide
      · simp only [queryHeader, hf, if_false]
        exact ⟨"query ($after: Int, ", "Int, $filter: " ++ f ++ "!) \x7b",
          String.ext (by simp [String.data_append])⟩
    · exact hhead.mpr (hargs.mp hocc)

/-! ## The upsert procedure (C5, C6, C7) -/

/-- C5: on a pointer to the scenario record with key field `id` the key lookup
succeeds, the existence check returns (true, nil) and `generateUpdateQuery`
builds the update statement, yet `UpsertRow` panics in `getValuesMap` and
executes no write; the same call on the struct value executes the update and
returns kind `update`. -/
theorem UpsertRow_pointer_record_panics :
    getFieldValueByTag (some (.ptr (.struct contractFields))) "id" = .ok (.data "7", none) ∧
    (Exists freshTx "contracts" "id" (.data "7")).1 = (true, none) ∧
    generateUpdateQuery (some (.ptr (.struct contractFields))) "contracts" "id"
      = .ok "UPDATE contracts SET name = :name WHERE id = :id;" ∧
    getValuesMap (some (.ptr (.struct contractFields)))
      = .panic "reflect: NumField of non-struct type" ∧
    (UpsertRow freshTx (some (.ptr (.struct contractFields))) "contracts" "id").1
      = .panic "reflect: NumField of non-struct type" ∧
    (UpsertRow freshTx (some (.ptr (.struct contractFields))) "contracts" "id").2.writes = [] ∧
    (UpsertRow freshTx (some (.struct contractFields)) "contracts" "id").1
      = .ok ("update", none) ∧
    (UpsertRow freshTx (some (.struct contractFields)) "contracts" "id").2.writes
      = [.NamedExec "UPDATE contracts SET name = :name WHERE id = :id;"
          [("id", .data "7"), ("name", .data "acme")]] := by
  refine ⟨by decide, by decide, by decide, by decide, by decide, by decide, by decide,
    by decide⟩

theorem Exists_writes (tx : Tx) (tableName fieldName : String) (val : Value) :
    (Exists tx tableName fieldName val).2.log
      = tx.log ++ [.QueryRowx ("SELECT 1 FROM " ++ tableName ++ " WHERE " ++ fieldName
          ++ " = $1 LIMIT 1;") val] ∧
    (Exists tx tableName fieldName val).2.writes = tx.writes := by
  simp only [Exists]
  split
  · split <;> simp [Tx.record, Tx.writes, Call.isWrite]
  · simp [Tx.record, Tx.writes, Call.isWrite]

theorem UpdateRow_ok {tx tx2 : Tx} {obj : Obj} {tableName keyField : String}
    {err : Option GoError} (h : UpdateRow tx obj tableName keyField = (.ok err, tx2)) :
    ∃ q m, generateUpdateQuery obj tableName keyField = .ok q ∧ getValuesMap obj = .ok m ∧
      err = tx.NamedExec tx.log q m ∧ tx2 = tx.record (.NamedExec q m) := by
  unfold UpdateRow at h
  cases hq : generateUpdateQuery obj tableName keyField with
  | ok q =>
    cases hm : getValuesMap obj with
    | ok m =>
      simp only [hq, hm, Prod.mk.injEq, Run.ok.injEq] at h
      exact ⟨q, m, rfl, rfl, h.1.symm, h.2.symm⟩
    | panic msg => simp [hq, hm] at h
    | overflow => simp [hq, hm] at h
  | panic msg => simp [hq] at h
  | overflow => simp [hq] at h

theorem AddRow_ok {tx tx2 : Tx} {obj : Obj} {tableName : String}
    {err : Option GoError} (h : AddRow tx obj tableName = (.ok err, tx2)) :
    ∃ q m, generateInsertQuery obj tableName = .ok q ∧ getValuesMap obj = .ok m ∧
      err = tx.NamedExec tx.log q m ∧ tx2 = tx.record (.NamedExec q m) := by
  unfold AddRow at h
  cases hq : generateInsertQuery obj tableName with
  | ok q =>
    cases hm : getValuesMap obj with
    | ok m =>
      simp only [hq, hm, Prod.mk.injEq, Run.ok.injEq] at h
      exact ⟨q, m, rfl, rfl, h.1.symm, h.2.symm⟩
    | panic msg => simp [hq, hm] at h
    | overflow => simp [hq, hm] at h
  | panic msg => simp [hq] at h
  | overflow => simp [hq] at h

/-- After a successful key lookup and an existence check without error, a call
of `UpsertRow` that returns has run exactly one of `UpdateRow` and `AddRow`:
one `NamedExec` on the transaction left by the existence check, whose error
it returns with the matching operation kind. -/
theorem UpsertRow_ok_after_check {tx tx1 tx2 : Tx} {obj : Obj} {tableName keyField : String}
    {v : Value} {b : Bool} {r : String × Option GoError}
    (hk : getFieldValueByTag obj keyField = .ok (v, none))
    (he : Exists tx tableName keyField v = ((b, none), tx1))
    (hr : UpsertRow tx obj tableName keyField = (.ok r, tx2)) :
    ∃ q m, getValuesMap obj = .ok m ∧ tx2 = tx1.record (.NamedExec q m) ∧
      r.2 = tx1.NamedExec tx1.log q m ∧
      ((b = true ∧ r.1 = update ∧ generateUpdateQuery obj tableName keyField = .ok q) ∨
       (b = false ∧ r.1 = insert ∧ generateInsertQuery obj tableName = .ok q)) := by
  unfold UpsertRow at hr
  simp only [hk, he] at hr
  cases b with
  | true =>
    simp only [if_true] at hr
    cases hu : UpdateRow tx1 obj tableName keyField with
    | mk ru tu =>
      cases ru with
      | ok err =>
        simp only [hu, Prod.mk.injEq, Run.ok.injEq] at hr
        obtain ⟨q, m, hq, hm, herr, htx⟩ := UpdateRow_ok hu
        refine ⟨q, m, hm, ?_, ?_, Or.inl ⟨rfl, ?_, hq⟩⟩
        · rw [← hr.2, htx]
        · rw [← hr.1, herr]
        · rw [← hr.1]
      | panic msg => simp [hu] at hr
      | overflow => simp [hu] at hr
  | false =>
    simp only [Bool.false_eq_true, if_false] at hr
    cases hu : AddRow tx1 obj tableName with
    | mk ru tu =>
      cases ru with
      | ok err =>
        simp only [hu, Prod.mk.injEq, Run.ok.injEq] at hr
        obtain ⟨q, m, hq, hm, herr, htx⟩ := AddRow_ok hu
        refine ⟨q, m, hm, ?_, ?_, Or.inr ⟨rfl, ?_, hq⟩⟩
        · rw [← hr.2, htx]
        · rw [← hr.1, herr]
        · rw [← hr.1]
      | panic msg => simp [hu] at hr
      | overflow => simp [hu] at hr

theorem UpsertRow_lookup_error {tx : Tx} {obj : Obj} {tableName keyField : String}
    {v : Value} {e : GoError} (hk : getFieldValueByTag obj keyField = .ok (v, some e)) :
    UpsertRow tx obj tableName keyField = (.ok ("", some e), tx) := by
  unfold UpsertRow
  simp only [hk]

theorem UpsertRow_check_error {tx tx1 : Tx} {obj : Obj} {tableName keyField : String}
    {v : Value} {b : Bool} {e : GoError}
    (hk : getFieldValueByTag obj keyField = .ok (v, none))
    (he : Exists tx tableName keyField v = ((b, some e), tx1)) :
    UpsertRow tx obj tableName keyField = (.ok ("", some e), tx1) := by
  unfold UpsertRow
  simp only [hk, he]

/-- C6, as stated, fails: with a key field that no field of the scenario
record is tagged with, `UpsertRow` returns the lookup error and has executed
no write statement, so not exactly one. -/
theorem UpsertRow_lookup_failure_no_write :
    (UpsertRow freshTx (some (.struct contractFields)) "contracts" "uuid").1
      = .ok ("", some (.errorf "no field with db tag %q found" (.str "uuid"))) ∧
    (UpsertRow freshTx (some (.struct contractFields)) "contracts" "uuid").2.writes = [] ∧
    ¬ ∃ c, (UpsertRow freshTx (some (.struct contractFields)) "contracts" "uuid").2.writes
        = freshTx.writes ++ [c] := by
  refine ⟨by decide, by decide, ?_⟩
  rintro ⟨c, hc⟩
  have h0 : (UpsertRow freshTx (some (.struct contractFields)) "contracts" "uuid").2.writes
      = [] := by decide
  rw [h0] at hc
  simp [Tx.writes, freshTx] at hc

/-- C6 (amended): a call of `UpsertRow` whose key lookup fails makes no call on
the transaction; one whose existence check returns an error executes no write
statement; one whose key lookup succeeds, whose existence check returns no
error and which returns has executed exactly one write statement. -/
theorem UpsertRow_writes (tx : Tx) (obj : Obj) (tableName keyField : String) :
    (∀ v e, getFieldValueByTag obj keyField = .ok (v, some e) →
        (UpsertRow tx obj tableName keyField).2.log = tx.log) ∧
    (∀ v b e, getFieldValueByTag obj keyField = .ok (v, none) →
        (Exists tx tableName keyField v).1 = (b, some e) →
        (UpsertRow tx obj tableName keyField).2.writes = tx.writes) ∧
    (∀ v b r, getFieldValueByTag obj keyField = .ok (v, none) →
        (Exists tx tableName keyField v).1 = (b, none) →
        (UpsertRow tx obj tableName keyField).1 = .ok r →
        ∃ q m, (UpsertRow tx obj tableName keyField).2.writes
          = tx.writes ++ [.NamedExec q m]) := by
  refine ⟨?_, ?_, ?_⟩
  · intro v e hk
    rw [UpsertRow_lookup_error hk]
  · intro v b e hk he
    have he2 : Exists tx tableName keyField v
        = ((b, some e), (Exists tx tableName keyField v).2) := by rw [← he]
    rw [UpsertRow_check_error hk he2]
    exact (Exists_writes tx tableName keyField v).2
  · intro v b r hk he hr
    have he2 : Exists tx tableName keyField v
        = ((b, none), (Exists tx tableName keyField v).2) := by rw [← he]
    have hr2 : UpsertRow tx obj tableName keyField
        = (.ok r, (UpsertRow tx obj tableName keyField).2) := by rw [← hr]
    obtain ⟨q, m, _, htx, _, _⟩ := UpsertRow_ok_after_check hk he2 hr2
    refine ⟨q, m, ?_⟩
    rw [htx]
    simp [Tx.writes, Tx.record, Call.isWrite, (Exists_writes tx tableName keyField v).1]

/-- C6 (amended), at the scenario record with key field `id` on a transaction
whose existence query finds a row: exactly one write statement. -/
theorem UpsertRow_writes_witness :
    ∃ q m, (UpsertRow freshTx (some (.struct contractFields)) "contracts" "id").2.writes
      = freshTx.writes ++ [.NamedExec q m] :=
  (UpsertRow_writes freshTx (some (.struct contractFields)) "contracts" "id").2.2
    (.data "7") true ("update", none) (by decide) (by decide) (by decide)

/-- C7: `Exists` returns (false, nil) when the scan error is or wraps
`sql.ErrNoRows`, and otherwise true together with the scan error unchanged:
(true, nil) when a row was scanned, the same error for any other failure; an
error it returns is never a no-rows error. -/
theorem Exists_result (tx : Tx) (tableName fieldName : String) (val : Value) :
    (Exists tx tableName fieldName val).1 =
      (match tx.Scan tx.log (existsQuery tableName fieldName) val with
       | none => (true, none)
       | some e => if errorsIs e .ErrNoRows then (false, none) else (true, some e)) ∧
    (∀ e, (Exists tx tableName fieldName val).1.2 = some e →
      errorsIs e .ErrNoRows = false ∧
      tx.Scan tx.log (existsQuery tableName fieldName) val = some e) ∧
    (∀ msg, errorsIs .ErrNoRows .ErrNoRows = true ∧
      errorsIs (.wrap msg .ErrNoRows) .ErrNoRows = true ∧
      errorsIs (.driver msg) .ErrNoRows = false) := by
  have h1 : (Exists tx tableName fieldName val).1 =
      (match tx.Scan tx.log (existsQuery tableName fieldName) val with
       | none => (true, none)
       | some e => if errorsIs e .ErrNoRows then (false, none) else (true, some e)) := by
    simp only [Exists, existsQuery]
    split
    · rename_i e he
      split <;> simp [he, *]
    · rename_i he
      simp [he]
  refine ⟨h1, ?_, ?_⟩
  · intro e he
    rw [h1] at he
    cases hs : tx.Scan tx.log (existsQuery tableName fieldName) val with
    | none => simp [hs] at he
    | some e2 =>
      by_cases hn : errorsIs e2 .ErrNoRows = true
      · simp [hs, hn] at he
      · simp only [hs, hn, Bool.false_eq_true, if_false, Option.some.injEq] at he
        subst he
        exact ⟨by simpa using hn, rfl⟩
  · intro msg
    simp [errorsIs]

/-- C7 at a driver whose existence query reports no rows. -/
theorem Exists_result_witness :
    errorsIs .ErrNoRows .ErrNoRows = true ∧
    (Exists failingTx "contracts" "id" (.data "7")).1 = (false, none) :=
  ⟨((Exists_result failingTx "contracts" "id" (.data "7")).2.2 "").1,
   by rw [(Exists_result failingTx "contracts" "id" (.data "7")).1]; decide⟩

/-! ## The key lookup (C8) -/

/-- C8: on the scenario record, whose field `Units` has no `db` annotation and
no field of which is annotated `db:""`, `getFieldValueByTag` with the empty
tag name returns the value of `Units` and a nil error instead of the
not-found error; a name that differs from every field's `db` value gives the
error. -/
theorem getFieldValueByTag_empty_name_found :
    getFieldValueByTag (some (.struct contractFields)) "" = .ok (.data "[]", none) ∧
    (∀ f ∈ contractFields, ∀ value, ("db", value) ∈ f.1.Tag → value ≠ "") ∧
    (∃ f ∈ contractFields, ∀ value, ("db", value) ∉ f.1.Tag) ∧
    getFieldValueByTag (some (.struct contractFields)) "uuid"
      = .ok (.nil, some (.errorf "no field with db tag %q found" (.str "uuid"))) := by
  refine ⟨by decide, ?_, ?_, by decide⟩
  · intro f hf value hv
    simp only [contractFields, List.mem_cons, List.mem_singleton, List.not_mem_nil,
      or_false] at hf
    rcases hf with rfl | rfl | rfl <;> simp at hv <;> simp [hv]
  · refine ⟨_, List.mem_cons_of_mem _ (List.mem_cons_of_mem _ (List.mem_singleton_self _)), ?_⟩
    intro value hv
    simp at hv

/-! ## Error propagation in the upsert procedure (C9) -/

theorem lookupLoop_no_match (tagName : String) (fields : List (StructField × Value))
    (h : ∀ f ∈ fields, f.1.Tag.Get "db" ≠ tagName) :
    lookupLoop tagName fields
      = .ok (.nil, some (.errorf "no field with db tag %q found" (.str tagName))) := by
  induction fields with
  | nil => rfl
  | cons f rest ih =>
    obtain ⟨field, val⟩ := f
    have hf : field.Tag.Get "db" ≠ tagName := h (field, val) (List.mem_cons_self _ _)
    simp only [lookupLoop, hf, if_false]
    exact ih (fun g hg => h g (List.mem_cons_of_mem _ hg))

theorem lookupLoop_match (tagName : String) (fields : List (StructField × Value))
    (h : ∃ f ∈ fields, f.1.Tag.Get "db" = tagName) (v : Value) (e : GoError) :
    lookupLoop tagName fields ≠ .ok (v, some e) := by
  induction fields with
  | nil => simp at h
  | cons f rest ih =>
    obtain ⟨field, val⟩ := f
    by_cases hf : field.Tag.Get "db" = tagName
    · by_cases hx : field.IsExported = true
      · simp [lookupLoop, hf, hx]
      · simp [lookupLoop, hf, hx]
    · simp only [lookupLoop, hf, if_false]
      apply ih
      obtain ⟨g, hg, hgt⟩ := h
      rcases List.mem_cons.mp hg with rfl | hg2
      · exact absurd hgt hf
      · exact ⟨g, hg2, hgt⟩

theorem getFieldValueByTag_struct (fields : List (StructField × Value)) (tagName : String) :
    getFieldValueByTag (some (.struct fields)) tagName = lookupLoop tagName fields ∧
    getFieldValueByTag (some (.ptr (.struct fields))) tagName = lookupLoop tagName fields := by
  constructor <;> simp [getFieldValueByTag, valueKind, valueElem, Val.Typ, RType.Kind]

theorem getFieldValueByTag_notARecord (obj : Obj) (tagName : String)
    (h : notARecord obj = true) :
    getFieldValueByTag obj tagName
      = .ok (.nil, some (.errorf "expected a struct or a pointer to a struct, got %T"
          (.type (TypeOf obj)))) := by
  cases obj with
  | none => simp [getFieldValueByTag, valueKind]
  | some val =>
    cases val with
    | struct fields => simp [notARecord] at h
    | ptr target =>
      simp only [notARecord, decide_eq_true_eq] at h
      have hp : valueKind (some (Val.ptr target)) = .Ptr := rfl
      have hk : valueKind (some target) ≠ .Struct := h
      simp only [getFieldValueByTag, hp, valueElem, hk, ne_eq, not_false_eq_true, if_true]
    | nilPtr elem => simp [getFieldValueByTag, valueKind, valueElem, Val.Typ, RType.Kind]
    | other k v =>
      simp only [notARecord, decide_eq_true_eq] at h
      simp [getFieldValueByTag, valueKind, Val.Typ, RType.Kind, h.1, h.2]

/-- C9: on the scenario record, no field of which is annotated with an empty
`db` tag, `UpsertRow` with the empty key field does not return a lookup
error: the lookup hands back the value of the untagged field `Units`, so for
every transaction the existence check is run with that value, and on a driver
that answers without error an update is executed and kind `update` returned. -/
theorem UpsertRow_empty_key_runs_check (tx : Tx) :
    (∀ f ∈ contractFields, ("db", "") ∉ f.1.Tag) ∧
    existsQuery "contracts" "" = "SELECT 1 FROM contracts WHERE  = $1 LIMIT 1;" ∧
    (∃ rest, (UpsertRow tx (some (.struct contractFields)) "contracts" "").2.log
      = tx.log ++ .QueryRowx (existsQuery "contracts" "") (.data "[]") :: rest) ∧
    (UpsertRow freshTx (some (.struct contractFields)) "contracts" "").1
      = .ok ("update", none) ∧
    (UpsertRow freshTx (some (.struct contractFields)) "contracts" "").2.log
      = [.QueryRowx "SELECT 1 FROM contracts WHERE  = $1 LIMIT 1;" (.data "[]"),
         .NamedExec "UPDATE contracts SET id = :id, name = :name WHERE  = :;"
          [("id", .data "7"), ("name", .data "acme")]] := by
  refine ⟨by decide, by decide, ?_, by decide, by decide⟩
  have hk : getFieldValueByTag (some (.struct contractFields)) ""
      = .ok (.data "[]", none) := by decide
  have hlog := (Exists_writes tx "contracts" "" (.data "[]")).1
  cases hE : Exists tx "contracts" "" (.data "[]") with
  | mk r tx1 =>
    obtain ⟨b, e⟩ := r
    rw [hE] at hlog
    have hlog2 : tx1.log = tx.log ++ [.QueryRowx (existsQuery "contracts" "") (.data "[]")] := by
      rw [hlog]; rfl
    cases e with
    | some err =>
      refine ⟨[], ?_⟩
      rw [UpsertRow_check_error hk hE]
      exact hlog2
    | none =>
      cases b with
      | true =>
        cases hu : UpdateRow tx1 (some (.struct contractFields)) "contracts" "" with
        | mk ru tu =>
          have hu2 := hu
          simp only [UpdateRow] at hu2
          have hq : generateUpdateQuery (some (.struct contractFields)) "contracts" ""
              = .ok "UPDATE contracts SET id = :id, name = :name WHERE  = :;" := by decide
          have hm : getValuesMap (some (.struct contractFields))
              = .ok [("id", .data "7"), ("name", .data "acme")] := by decide
          simp only [hq, hm, Prod.mk.injEq] at hu2
          refine ⟨[.NamedExec "UPDATE contracts SET id = :id, name = :name WHERE  = :;"
            [("id", .data "7"), ("name", .data "acme")]], ?_⟩
          simp only [UpsertRow, hk, hE, if_true, hu]
          rw [← hu2.1, ← hu2.2]
          simp [Tx.record, hlog2]
      | false =>
        cases hu : AddRow tx1 (some (.struct contractFields)) "contracts" with
        | mk ru tu =>
          have hu2 := hu
          simp only [AddRow] at hu2
          have hq : generateInsertQuery (some (.struct contractFields)) "contracts"
              = .ok "INSERT INTO contracts (id, name) VALUES (:id, :name);" := by decide
          have hm : getValuesMap (some (.struct contractFields))
              = .ok [("id", .data "7"), ("name", .data "acme")] := by decide
          simp only [hq, hm, Prod.mk.injEq] at hu2
          refine ⟨[.NamedExec "INSERT INTO contracts (id, name) VALUES (:id, :name);"
            [("id", .data "7"), ("name", .data "acme")]], ?_⟩
          simp only [UpsertRow, hk, hE, Bool.false_eq_true, if_false, hu]
          rw [← hu2.1, ← hu2.2]
          simp [Tx.record, hlog2]

/-! ## Untagged fields and the other tag (C10) -/

theorem GoType_Str_congr (decls decls' : Decls) (hs : ∀ id, (decls' id).Str = (decls id).Str)
    (t : GoType) : t.Str decls' = t.Str decls := by
  induction t with
  | basic k name => rfl
  | ptr elem ih => simp [GoType.Str, ih]
  | slice elem ih => simp [GoType.Str, ih]
  | namedSlice name elem _ => rfl
  | struct id => simp [GoType.Str, hs]

theorem fieldsLoop_congr (decls decls' : Decls) (recur recur' : GoType → Nat → Run String)
    (hs : ∀ id, (decls' id).Str = (decls id).Str) (hr : ∀ t l, recur' t l = recur t l)
    (indentLevel : Nat) (indent : String) (fs : List StructField) (acc : List String) :
    fieldsLoop decls' recur' indentLevel indent fs acc
      = fieldsLoop decls recur indentLevel indent fs acc := by
  induction fs generalizing acc with
  | nil => rfl
  | cons f rest ih =>
    simp only [fieldsLoop, GoType_Str_congr decls decls' hs, hr, ih]

theorem fieldsLoop_skip (decls : Decls) (recur : GoType → Nat → Run String)
    (indentLevel : Nat) (indent : String) (f : StructField) (rest : List StructField)
    (acc : List String) (h : f.Tag.Get "gql" = "") :
    fieldsLoop decls recur indentLevel indent (f :: rest) acc
      = fieldsLoop decls recur indentLevel indent rest acc := by
  simp [fieldsLoop, h]

theorem fieldsLoop_head (decls : Decls) (recur : GoType → Nat → Run String)
    (indentLevel : Nat) (indent : String) (f g : StructField) (rest rest' : List StructField)
    (ht : f.Tag.Get "gql" = g.Tag.Get "gql") (hty : f.Typ = g.Typ)
    (hrest : ∀ acc, fieldsLoop decls recur indentLevel indent rest acc
      = fieldsLoop decls recur indentLevel indent rest' acc) (acc : List String) :
    fieldsLoop decls recur indentLevel indent (f :: rest) acc
      = fieldsLoop decls recur indentLevel indent (g :: rest') acc := by
  simp only [fieldsLoop, ht, hty, hrest]

theorem fieldsLoop_canon (decls : Decls) (recur : GoType → Nat → Run String)
    (indentLevel : Nat) (indent : String) (fs : List StructField) (acc : List String) :
    fieldsLoop decls recur indentLevel indent fs acc
      = fieldsLoop decls recur indentLevel indent (fs.filterMap gqlCanon) acc := by
  induction fs generalizing acc with
  | nil => rfl
  | cons f rest ih =>
    by_cases h : f.Tag.Get "gql" = ""
    · rw [fieldsLoop_skip _ _ _ _ _ _ _ h]
      simp only [List.filterMap_cons, gqlCanon, h, ne_eq, not_true_eq_false, if_false]
      exact ih acc
    · simp only [List.filterMap_cons, gqlCanon, h, ne_eq, not_false_eq_true, if_true]
      exact fieldsLoop_head _ _ _ _ _ _ _ _ (by simp [StructTag.Get]) rfl ih acc

theorem getStructFields_congr (decls decls' : Decls)
    (hs : ∀ id, (decls' id).Str = (decls id).Str)
    (hf : ∀ id, (decls' id).Fields.filterMap gqlCanon = (decls id).Fields.filterMap gqlCanon)
    (fuel : Nat) (t : GoType) (indentLevel : Nat) :
    getStructFields decls' fuel t indentLevel = getStructFields decls fuel t indentLevel := by
  induction fuel generalizing t indentLevel with
  | zero => rfl
  | succ n ih =>
    cases t with
    | struct id =>
      simp only [getStructFields, GoType.Fields]
      rw [fieldsLoop_canon decls', fieldsLoop_canon decls, hf id,
        fieldsLoop_congr decls decls' _ _ hs ih]
    | basic k name => rfl
    | ptr elem => rfl
    | slice elem => rfl
    | namedSlice name elem => rfl

theorem GoType_Name_congr (decls decls' : Decls) (hn : ∀ id, (decls' id).Name = (decls id).Name)
    (t : GoType) : t.Name decls' = t.Name decls := by
  cases t <;> simp [GoType.Name, hn]

theorem BuildQuery_congr (decls decls' : Decls)
    (hn : ∀ id, (decls' id).Name = (decls id).Name)
    (hs : ∀ id, (decls' id).Str = (decls id).Str)
    (hf : ∀ id, (decls' id).Fields.filterMap gqlCanon = (decls id).Fields.filterMap gqlCanon)
    (fuel : Nat) (T : GoType) (f : String) :
    BuildQuery decls' fuel T f = BuildQuery decls fuel T f := by
  simp only [BuildQuery, getStructFields_congr decls decls' hs hf, GoType_Name_congr decls decls' hn]

theorem filterMap_deleteMarked {α β : Type} (g : α → Option β) (p : α → Bool)
    (hp : ∀ a, p a = true → g a = none) (del : Nat → Bool) (i : Nat) (l : List α) :
    (deleteMarked p del i l).filterMap g = l.filterMap g := by
  induction l generalizing i with
  | nil => rfl
  | cons a rest ih =>
    by_cases h : (del i && p a) = true
    · have hpa : p a = true := by
        simp only [Bool.and_eq_true] at h
        exact h.2
      simp only [deleteMarked, h, if_true, List.filterMap_cons, hp a hpa, ih]
    · simp only [deleteMarked, h, Bool.false_eq_true, if_false, List.filterMap_cons, ih]

theorem dbTags_eq_filterMap (fields : List StructField) :
    dbTags fields
      = fields.filterMap (fun f => if f.Tag.Get "db" = "" then none else some (f.Tag.Get "db")) := by
  induction fields with
  | nil => rfl
  | cons f rest ih =>
    by_cases h : f.Tag.Get "db" = ""
    · simpa [dbTags, h] using ih
    · simpa [dbTags, h] using ih

theorem dbTags_deleteUntaggedDb (del : Nat → Bool) (fields : List (StructField × Value)) :
    dbTags ((deleteUntaggedDb del fields).map Prod.fst) = dbTags (fields.map Prod.fst) := by
  rw [dbTags_eq_filterMap, dbTags_eq_filterMap, List.filterMap_map, List.filterMap_map]
  exact filterMap_deleteMarked _ _ (by intro a ha; simpa using ha) del 0 fields

theorem gqlCanon_of_differ {a b : StructField} (h : differOnlyInTag "db" a b) :
    gqlCanon a = gqlCanon b := by
  obtain ⟨_, _, hty, hk⟩ := h
  have hg : a.Tag.Get "gql" = b.Tag.Get "gql" := hk "gql" (by decide)
  simp [gqlCanon, hg, hty]

theorem filterMap_of_forall₂ {α β : Type} (g : α → Option β) (R : α → α → Prop)
    (hR : ∀ a b, R a b → g a = g b) {l l' : List α} (h : List.Forall₂ R l l') :
    l.filterMap g = l'.filterMap g := by
  induction h with
  | nil => rfl
  | cons hab _ ih => simp [List.filterMap_cons, hR _ _ hab, ih]

/-- C10: deleting fields without `gql` tag from the struct types, at any
positions of any struct type, leaves the outcome of `BuildQuery` unchanged for
every root type, filter type name and recursion budget; deleting top-level
fields without `db` tag from a record leaves the texts of
`generateInsertQuery` and `generateUpdateQuery` unchanged, for the struct value
and for a pointer to it; struct types that differ only in what the tags hold
under `db` give the same `BuildQuery` outcome, and records that differ only in
what the tags hold under `gql` give the same two SQL texts. -/
theorem untagged_and_other_tag_ignored :
    (∀ (decls : Decls) (del : Nat → Nat → Bool) (fuel : Nat) (T : GoType) (f : String),
      BuildQuery (deleteUntaggedGql del decls) fuel T f = BuildQuery decls fuel T f) ∧
    (∀ (fields : List (StructField × Value)) (del : Nat → Bool) (tableName keyField : String),
      generateInsertQuery (some (.struct (deleteUntaggedDb del fields))) tableName
        = generateInsertQuery (some (.struct fields)) tableName ∧
      generateInsertQuery (some (.ptr (.struct (deleteUntaggedDb del fields)))) tableName
        = generateInsertQuery (some (.ptr (.struct fields))) tableName ∧
      generateUpdateQuery (some (.struct (deleteUntaggedDb del fields))) tableName keyField
        = generateUpdateQuery (some (.struct fields)) tableName keyField ∧
      generateUpdateQuery (some (.ptr (.struct (deleteUntaggedDb del fields)))) tableName keyField
        = generateUpdateQuery (some (.ptr (.struct fields))) tableName keyField) ∧
    (∀ (decls decls' : Decls) (fuel : Nat) (T : GoType) (f : String),
      (∀ id, (decls' id).Name = (decls id).Name ∧ (decls' id).Str = (decls id).Str ∧
        List.Forall₂ (differOnlyInTag "db") (decls' id).Fields (decls id).Fields) →
      BuildQuery decls' fuel T f = BuildQuery decls fuel T f) ∧
    (∀ (fields fields' : List (StructField × Value)) (tableName keyField : String),
      List.Forall₂ (fun a b => differOnlyInTag "gql" a.1 b.1) fields' fields →
      generateInsertQuery (some (.struct fields')) tableName
        = generateInsertQuery (some (.struct fields)) tableName ∧
      generateInsertQuery (some (.ptr (.struct fields'))) tableName
        = generateInsertQuery (some (.ptr (.struct fields))) tableName ∧
      generateUpdateQuery (some (.struct fields')) tableName keyField
        = generateUpdateQuery (some (.struct fields)) tableName keyField ∧
      generateUpdateQuery (some (.ptr (.struct fields'))) tableName keyField
        = generateUpdateQuery (some (.ptr (.struct fields))) tableName keyField) := by
  have hsql : ∀ (fields fields' : List (StructField × Value)) (tableName keyField : String),
      dbTags (fields'.map Prod.fst) = dbTags (fields.map Prod.fst) →
      generateInsertQuery (some (.struct fields')) tableName
        = generateInsertQuery (some (.struct fields)) tableName ∧
      generateInsertQuery (some (.ptr (.struct fields'))) tableName
        = generateInsertQuery (some (.ptr (.struct fields))) tableName ∧
      generateUpdateQuery (some (.struct fields')) tableName keyField
        = generateUpdateQuery (some (.struct fields)) tableName keyField ∧
      generateUpdateQuery (some (.ptr (.struct fields'))) tableName keyField
        = generateUpdateQuery (some (.ptr (.struct fields))) tableName keyField := by
    intro fields fields' tableName keyField h
    have hi : generateInsertQuery (some (.struct fields')) tableName
        = generateInsertQuery (some (.struct fields)) tableName := by
      rw [(generateInsertQuery_struct fields' tableName).1,
        (generateInsertQuery_struct fields tableName).1, h]
    have hu : generateUpdateQuery (some (.struct fields')) tableName keyField
        = generateUpdateQuery (some (.struct fields)) tableName keyField := by
      rw [(generateUpdateQuery_struct fields' tableName keyField).1,
        (generateUpdateQuery_struct fields tableName keyField).1, h]
    refine ⟨hi, ?_, hu, ?_⟩
    · rw [(generateInsertQuery_struct fields' tableName).2,
        (generateInsertQuery_struct fields tableName).2, hi]
    · rw [(generateUpdateQuery_struct fields' tableName keyField).2,
        (generateUpdateQuery_struct fields tableName keyField).2, hu]
  refine ⟨?_, ?_, ?_, ?_⟩
  · intro decls del fuel T f
    apply BuildQuery_congr
    · intro id; rfl
    · intro id; rfl
    · intro id
      exact filterMap_deleteMarked gqlCanon _
        (by intro a ha; simp only [decide_eq_true_eq] at ha; simp [gqlCanon, ha]) (del id) 0 _
  · intro fields del tableName keyField
    exact hsql fields _ tableName keyField (dbTags_deleteUntaggedDb del fields)
  · intro decls decls' fuel T f h
    apply BuildQuery_congr
    · exact fun id => (h id).1
    · exact fun id => (h id).2.1
    · intro id
      exact filterMap_of_forall₂ gqlCanon _ (fun a b hab => gqlCanon_of_differ hab) (h id).2.2
  · intro fields fields' tableName keyField h
    apply hsql
    rw [dbTags_eq_filterMap, dbTags_eq_filterMap, List.filterMap_map, List.filterMap_map]
    refine filterMap_of_forall₂ _ _ ?_ h
    intro a b hab
    have hd : a.1.Tag.Get "db" = b.1.Tag.Get "db" := hab.2.2.2 "db" (by decide)
    simp [hd]

theorem scenarioDeclsNoDb_differ (id : Nat) :
    (scenarioDeclsNoDb id).Name = (scenarioDecls id).Name ∧
    (scenarioDeclsNoDb id).Str = (scenarioDecls id).Str ∧
    List.Forall₂ (differOnlyInTag "db") (scenarioDeclsNoDb id).Fields (scenarioDecls id).Fields := by
  cases id with
  | zero =>
    refine ⟨rfl, rfl, ?_⟩
    refine .cons ⟨rfl, rfl, rfl, fun k hk => ?_⟩ (.cons ⟨rfl, rfl, rfl, fun k hk => ?_⟩
      (.cons ⟨rfl, rfl, rfl, fun k hk => ?_⟩ .nil))
    · simp [StructTag.Get, Ne.symm hk]
    · simp [StructTag.Get, Ne.symm hk]
    · rfl
  | succ n =>
    refine ⟨rfl, rfl, ?_⟩
    exact .cons ⟨rfl, rfl, rfl, fun k _ => rfl⟩ .nil

theorem contractFieldsNoGql_differ :
    List.Forall₂ (fun a b => differOnlyInTag "gql" a.1 b.1) contractFieldsNoGql contractFields := by
  refine .cons ⟨rfl, rfl, rfl, fun k hk => ?_⟩ (.cons ⟨rfl, rfl, rfl, fun k hk => ?_⟩
    (.cons ⟨rfl, rfl, rfl, fun k hk => ?_⟩ .nil))
  · simp [StructTag.Get, Ne.symm hk]
  · simp [StructTag.Get, Ne.symm hk]
  · simp [StructTag.Get, Ne.symm hk]

/-- C10 at the scenario: the struct types without their `db` tags give the
same document, and the record without its `gql` tags gives the same insert
text. -/
theorem untagged_and_other_tag_ignored_witness :
    (BuildQuery scenarioDeclsNoDb 2 (.struct 0) "Filter"
      = BuildQuery scenarioDecls 2 (.struct 0) "Filter") ∧
    (generateInsertQuery (some (.struct contractFieldsNoGql)) "contracts"
      = generateInsertQuery (some (.struct contractFields)) "contracts") :=
  ⟨untagged_and_other_tag_ignored.2.2.1 scenarioDecls scenarioDeclsNoDb 2 (.struct 0) "Filter"
      scenarioDeclsNoDb_differ,
   (untagged_and_other_tag_ignored.2.2.2 contractFields contractFieldsNoGql "contracts" "id"
      contractFieldsNoGql_differ).1⟩

/-! ## Optional wrappers and declaration order (C11, C12) -/

theorem fieldsLoop_step (decls : Decls) (recur : GoType → Nat → Run String) (indentLevel : Nat)
    (indent : String) (f : StructField) (rest : List StructField) (acc : List String) :
    fieldsLoop decls recur indentLevel indent (f :: rest) acc =
      (match fieldEntry decls recur indentLevel indent f with
       | .ok none => fieldsLoop decls recur indentLevel indent rest acc
       | .ok (some e) => fieldsLoop decls recur indentLevel indent rest (acc ++ [e])
       | .panic msg => .panic msg
       | .overflow => .overflow) := by
  simp only [fieldsLoop, fieldEntry]
  repeat' split
  all_goals first | rfl | simp_all

theorem fieldsLoop_acc (decls : Decls) (recur : GoType → Nat → Run String) (indentLevel : Nat)
    (indent : String) (fs : List StructField) (acc : List String) :
    fieldsLoop decls recur indentLevel indent fs acc =
      (match fieldsLoop decls recur indentLevel indent fs [] with
       | .ok l => .ok (acc ++ l)
       | .panic msg => .panic msg
       | .overflow => .overflow) := by
  induction fs generalizing acc with
  | nil => simp [fieldsLoop]
  | cons f rest ih =>
    rw [fieldsLoop_step, fieldsLoop_step decls recur indentLevel indent f rest []]
    cases he : fieldEntry decls recur indentLevel indent f with
    | ok o =>
      cases o with
      | none => exact ih acc
      | some e =>
        simp only [List.nil_append]
        rw [ih (acc ++ [e]), ih [e]]
        cases fieldsLoop decls recur indentLevel indent rest [] <;> simp
    | panic msg => rfl
    | overflow => rfl

theorem fieldsLoop_append (decls : Decls) (recur : GoType → Nat → Run String) (indentLevel : Nat)
    (indent : String) (as bs : List StructField) (acc : List String) :
    fieldsLoop decls recur indentLevel indent (as ++ bs) acc =
      (match fieldsLoop decls recur indentLevel indent as acc with
       | .ok l => fieldsLoop decls recur indentLevel indent bs l
       | .panic msg => .panic msg
       | .overflow => .overflow) := by
  induction as generalizing acc with
  | nil => simp [fieldsLoop]
  | cons f rest ih =>
    rw [List.cons_append, fieldsLoop_step, fieldsLoop_step decls recur indentLevel indent f rest]
    cases he : fieldEntry decls recur indentLevel indent f with
    | ok o =>
      cases o with
      | none => exact ih acc
      | some e => exact ih (acc ++ [e])
    | panic msg => rfl
    | overflow => rfl

theorem fieldsLoop_ne_nil (decls : Decls) (recur : GoType → Nat → Run String) (indentLevel : Nat)
    (indent : String) (fs : List StructField) (h : ∃ f ∈ fs, f.Tag.Get "gql" ≠ "")
    (l : List String) (hl : fieldsLoop decls recur indentLevel indent fs [] = .ok l) : l ≠ [] := by
  induction fs with
  | nil => simp at h
  | cons f rest ih =>
    rw [fieldsLoop_step] at hl
    cases he : fieldEntry decls recur indentLevel indent f with
    | ok o =>
      cases o with
      | none =>
        simp only [he] at hl
        apply ih _ hl
        obtain ⟨g, hg, hgt⟩ := h
        rcases List.mem_cons.mp hg with rfl | hg2
        · exfalso
          simp only [fieldEntry] at he
          rw [if_pos hgt] at he
          repeat' split at he
          all_goals simp_all
        · exact ⟨g, hg2, hgt⟩
      | some e =>
        simp only [he, List.nil_append] at hl
        rw [fieldsLoop_acc] at hl
        cases hr : fieldsLoop decls recur indentLevel indent rest [] with
        | ok l2 =>
          simp only [hr, Run.ok.injEq] at hl
          rw [← hl]
          simp
        | panic msg => simp [hr] at hl
        | overflow => simp [hr] at hl
    | panic msg => simp [he] at hl
    | overflow => simp [he] at hl

theorem Join_append (la lb : List String) (sep : String) (ha : la ≠ []) (hb : lb ≠ []) :
    Join (la ++ lb) sep = Join la sep ++ sep ++ Join lb sep := by
  induction la with
  | nil => exact absurd rfl ha
  | cons a rest ih =>
    cases rest with
    | nil =>
      cases lb with
      | nil => exact absurd rfl hb
      | cons b lb2 => simp [Join]
    | cons a2 rest2 =>
      have := ih (by simp)
      simp only [List.cons_append] at this ⊢
      simp only [Join, this, String.append_assoc]

/-- C11, as stated, fails: the field `Times null.Times gql:"times"`, whose
type is the declared slice type `null.Times` with elements `time.Time`, has a
type name that starts with `null.`, yet the loop of `getStructFields` consults
the recursive call for the element type and renders the field as a block, not
as the leaf line. -/
theorem named_slice_wrapper_is_block :
    HasPrefix ((GoType.namedSlice "null.Times" (.struct 1)).Str timesDecls) "null." = true ∧
    fieldEntry timesDecls (fun _ _ => .overflow) 2 "\t\t"
        ⟨"Times", "", [("gql", "times")], .namedSlice "null.Times" (.struct 1)⟩ = .overflow ∧
    getStructFields timesDecls 2 (.struct 0) 2 = .ok "\t\ttimes \x7b\n\t\t\n\t\t\x7d" ∧
    getStructFields timesDecls 2 (.struct 0) 2 ≠ .ok "\t\ttimes" := by
  refine ⟨by decide, by decide, by decide, by decide⟩

/-- C11 (amended): a field with a `gql` tag whose type is not of slice kind
and is named with the prefix `null.`, or whose type is a slice, declared or
not, with an element type named with that prefix, adds exactly the leaf line
(indent followed by the tag) to the fields of `getStructFields`, whatever the
recursive call would do and whatever the struct behind the name declares: the
loop continues as it does after a scalar field with the same tag. -/
theorem null_wrapper_is_leaf (decls : Decls) (recur : GoType → Nat → Run String)
    (indentLevel : Nat) (indent : String) (f : StructField) (rest : List StructField)
    (acc : List String) (htag : f.Tag.Get "gql" ≠ "")
    (hnull : (f.Typ.Kind ≠ .Slice ∧ HasPrefix (f.Typ.Str decls) "null." = true) ∨
      (∃ elem, f.Typ.Kind = .Slice ∧ f.Typ.Elem = .ok elem ∧
        HasPrefix (elem.Str decls) "null." = true)) :
    fieldEntry decls recur indentLevel indent f = .ok (some (indent ++ f.Tag.Get "gql")) ∧
    fieldsLoop decls recur indentLevel indent (f :: rest) acc
      = fieldsLoop decls recur indentLevel indent rest (acc ++ [indent ++ f.Tag.Get "gql"]) ∧
    fieldsLoop decls recur indentLevel indent (f :: rest) acc
      = fieldsLoop decls recur indentLevel indent
          (⟨f.Name, f.PkgPath, f.Tag, .basic .String "string"⟩ :: rest) acc := by
  have he : fieldEntry decls recur indentLevel indent f
      = .ok (some (indent ++ f.Tag.Get "gql")) := by
    rcases hnull with ⟨hk, hp⟩ | ⟨elem, hk, hel, hp⟩
    · by_cases hs : f.Typ.Kind = .Struct
      · have hne : ¬ (Kind.Struct = Kind.Slice) := by decide
        simp only [fieldEntry, htag, hs, hne, hp, leafLine, ne_eq, not_false_eq_true, if_true,
          if_false]
      · simp only [fieldEntry, htag, hk, hs, leafLine, ne_eq, not_false_eq_true, if_true,
          if_false]
    · simp only [fieldEntry, hk, hel, hp, leafLine, if_true, htag, ne_eq,
        not_false_eq_true, ite_self]
  have hscalar : fieldEntry decls recur indentLevel indent
      ⟨f.Name, f.PkgPath, f.Tag, .basic .String "string"⟩
      = .ok (some (indent ++ f.Tag.Get "gql")) := by
    simp [fieldEntry, htag, GoType.Kind, leafLine]
  refine ⟨he, ?_, ?_⟩
  · rw [fieldsLoop_step, he]
  · rw [fieldsLoop_step, he, fieldsLoop_step, hscalar]

/-- C11 (amended) at a record with a field of type `null.String` and a field
of type `[]null.String`, where `null.String` is a struct that has a tagged
field of its own type: each renders as one leaf line and a budget of one call
is enough. -/
theorem null_wrapper_is_leaf_witness :
    HasPrefix (wrapperDecls 1).Str "null." = true ∧
    fieldEntry wrapperDecls (fun _ _ => .overflow) 2 "\t\t"
        ⟨"Note", "", [("gql", "note")], .struct 1⟩ = .ok (some ("\t\t" ++ "note")) ∧
    fieldEntry wrapperDecls (fun _ _ => .overflow) 2 "\t\t"
        ⟨"Tags", "", [("gql", "tags")], .slice (.struct 1)⟩ = .ok (some ("\t\t" ++ "tags")) ∧
    getStructFields wrapperDecls 1 (.struct 0) 2 = .ok "\t\tnote\n\t\ttags" :=
  ⟨by decide,
   (null_wrapper_is_leaf wrapperDecls (fun _ _ => .overflow) 2 "\t\t"
      ⟨"Note", "", [("gql", "note")], .struct 1⟩ [] [] (by decide)
      (Or.inl ⟨by decide, by decide⟩)).1,
   (null_wrapper_is_leaf wrapperDecls (fun _ _ => .overflow) 2 "\t\t"
      ⟨"Tags", "", [("gql", "tags")], .slice (.struct 1)⟩ [] [] (by decide)
      (Or.inr ⟨.struct 1, by decide, by decide, by decide⟩)).1,
   by decide⟩

theorem splitLines_ne_nil (cs : List Char) : splitLines cs ≠ [] := by
  cases cs with
  | nil => simp [splitLines]
  | cons c cs =>
    by_cases hc : c = '\n'
    · simp [splitLines, hc]
    · cases h : splitLines cs <;> simp [splitLines, hc, h]

theorem splitLines_nl (a b : List Char) :
    splitLines (a ++ '\n' :: b) = splitLines a ++ splitLines b := by
  induction a with
  | nil => simp [splitLines]
  | cons c a ih =>
    by_cases hc : c = '\n'
    · simp [splitLines, hc, ih]
    · cases h : splitLines a with
      | nil => exact absurd h (splitLines_ne_nil a)
      | cons l ls => simp [splitLines, hc, ih, h]

theorem splitLines_single (t : List Char) (h : '\n' ∉ t) : splitLines t = [t] := by
  induction t with
  | nil => rfl
  | cons c t ih =>
    have hc : c ≠ '\n' := fun hc => h (by simp [hc])
    have ht : '\n' ∉ t := fun ht => h (List.mem_cons_of_mem _ ht)
    simp [splitLines, hc, ih ht]

theorem splitLines_append (a t : List Char) (h : '\n' ∉ t) :
    splitLines (a ++ t) = appendLast (splitLines a) t := by
  induction a with
  | nil => simp [splitLines, appendLast, splitLines_single t h]
  | cons c a ih =>
    by_cases hc : c = '\n'
    · cases hs : splitLines a with
      | nil => exact absurd hs (splitLines_ne_nil a)
      | cons l ls =>
        rw [hs] at ih
        simp [splitLines, hc, ih, hs, appendLast]
    · cases hs : splitLines a with
      | nil => exact absurd hs (splitLines_ne_nil a)
      | cons l ls =>
        cases ls with
        | nil => simp [splitLines, hc, ih, hs, appendLast]
        | cons l2 ls2 => simp [splitLines, hc, ih, hs, appendLast]

theorem filterMap_appendLast (ls : List (List Char)) (t : List Char) (hls : ls ≠ [])
    (h : ∀ l, lineTag (l ++ t) = lineTag l) :
    (appendLast ls t).filterMap lineTag = ls.filterMap lineTag := by
  induction ls with
  | nil => exact absurd rfl hls
  | cons l rest ih =>
    cases rest with
    | nil => simp [appendLast, List.filterMap_cons, h]
    | cons l2 rest2 =>
      simp only [appendLast, List.filterMap_cons]
      rw [ih (by simp)]
      simp only [List.filterMap_cons]

theorem lineTag_append_tabs (l : List Char) (k : Nat) :
    lineTag (l ++ List.replicate k '\t') = lineTag l := by
  have h : (List.replicate k '\t').filter (fun c => decide (c ≠ '\t')) = [] := by
    induction k with
    | zero => rfl
    | succ n ih => simp [List.replicate_succ, ih]
  simp only [lineTag, List.filter_append, h, List.append_nil]

theorem Repeat_data (k : Nat) : (Repeat "\t" k).data = List.replicate k '\t' := by
  induction k with
  | zero => rfl
  | succ n ih => simp [Repeat, String.data_append, ih, List.replicate_succ]

theorem filter_tabs_clean (d : Nat) (rest : List Char) (hr : '\t' ∉ rest) :
    (List.replicate d '\t' ++ rest).filter (fun c => decide (c ≠ '\t')) = rest := by
  have h : (List.replicate d '\t').filter (fun c => decide (c ≠ '\t')) = [] := by
    induction d with
    | zero => rfl
    | succ n ih => simp [List.replicate_succ, ih]
  rw [List.filter_append, h, List.nil_append]
  apply List.filter_eq_self.mpr
  intro c hc
  simp only [ne_eq, decide_eq_true_eq]
  intro hct
  exact hr (hct ▸ hc)

theorem lineTag_leaf (d : Nat) (tag : String) (hc : cleanTag tag) (hne : tag ≠ "") :
    lineTag (List.replicate d '\t' ++ tag.data) = some tag := by
  have htab : '\t' ∉ tag.data := fun h => (hc _ h).1 rfl
  have hcore := filter_tabs_clean d tag.data htab
  have h1 : tag.data ≠ [] := fun h => hne (String.ext h)
  have h2 : tag.data ≠ ['\x7d'] := by
    intro h
    exact (hc '\x7d' (by rw [h]; exact List.mem_singleton_self _)).2.2.2 rfl
  have h3 : ¬ ([' ', '\x7b'] <:+ tag.data) := by
    rintro ⟨t, ht⟩
    exact (hc '\x7b' (by rw [← ht]; simp)).2.2.1 rfl
  simp only [lineTag, hcore, h1, h2, h3, or_self, if_false]

theorem lineTag_open (d : Nat) (tag : String) (hc : cleanTag tag) :
    lineTag (List.replicate d '\t' ++ (tag.data ++ [' ', '\x7b'])) = some tag := by
  have htab : '\t' ∉ tag.data ++ [' ', '\x7b'] := by
    intro h
    rcases List.mem_append.mp h with h | h
    · exact (hc _ h).1 rfl
    · revert h; decide
  have hcore := filter_tabs_clean d (tag.data ++ [' ', '\x7b']) htab
  have h1 : tag.data ++ [' ', '\x7b'] ≠ [] := by simp
  have h2 : tag.data ++ [' ', '\x7b'] ≠ ['\x7d'] := by
    intro h
    have := congrArg List.length h
    simp at this
  have h3 : [' ', '\x7b'] <:+ tag.data ++ [' ', '\x7b'] := ⟨tag.data, rfl⟩
  simp only [lineTag, hcore, h1, h2, h3, or_self, if_false, if_true, List.length_append,
    List.length_cons, List.length_nil, Nat.add_sub_cancel, List.take_left']

theorem lineTag_close (d : Nat) : lineTag (List.replicate d '\t' ++ ['\x7d']) = none := by
  have hcore := filter_tabs_clean d ['\x7d'] (by decide)
  simp only [lineTag, hcore, or_true, if_true]

theorem readTags_nl (a b : String) : readTags (a ++ "\n" ++ b) = readTags a ++ readTags b := by
  have h : (a ++ "\n" ++ b).data = a.data ++ '\n' :: b.data := by
    simp [String.data_append]
  simp only [readTags, h, splitLines_nl, List.filterMap_append]

theorem readTags_tabs (a : String) (k : Nat) : readTags (a ++ Repeat "\t" k) = readTags a := by
  have hnl : '\n' ∉ List.replicate k '\t' := by
    intro h
    have := List.eq_of_mem_replicate h
    revert this; decide
  simp only [readTags, String.data_append, Repeat_data, splitLines_append _ _ hnl]
  exact filterMap_appendLast _ _ (splitLines_ne_nil _) (fun l => lineTag_append_tabs l k)

theorem readTags_empty : readTags "" = [] := by decide

theorem readTags_Join (es : List String) :
    readTags (Join es "\n") = (es.map readTags).flatten := by
  induction es with
  | nil => simp [Join, readTags_empty]
  | cons a rest ih =>
    cases rest with
    | nil => simp [Join]
    | cons b rest2 =>
      simp only [Join] at ih ⊢
      rw [readTags_nl, ih]
      simp

theorem noNL_tabs_clean (d : Nat) (tag : String) (hc : cleanTag tag) (suffix : List Char)
    (hs : '\n' ∉ suffix) : '\n' ∉ List.replicate d '\t' ++ (tag.data ++ suffix) := by
  intro h
  rcases List.mem_append.mp h with h | h
  · have := List.eq_of_mem_replicate h
    revert this; decide
  · rcases List.mem_append.mp h with h | h
    · exact (hc _ h).2.1 rfl
    · exact hs h

theorem readTags_leafLine (d : Nat) (tag : String) (hc : cleanTag tag) (hne : tag ≠ "") :
    readTags (leafLine (Repeat "\t" d) tag) = [tag] := by
  have h : (leafLine (Repeat "\t" d) tag).data = List.replicate d '\t' ++ tag.data := by
    simp [leafLine, String.data_append, Repeat_data]
  have hnl : '\n' ∉ List.replicate d '\t' ++ tag.data := by
    simpa using noNL_tabs_clean d tag hc [] (by simp)
  simp only [readTags, h, splitLines_single _ hnl, List.filterMap_cons, lineTag_leaf d tag hc hne,
    List.filterMap_nil]

theorem readTags_blockText (d : Nat) (tag nested : String) (hc : cleanTag tag) :
    readTags (blockText (Repeat "\t" d) tag nested) = tag :: readTags nested := by
  have h : blockText (Repeat "\t" d) tag nested
      = (Repeat "\t" d ++ tag ++ " \x7b") ++ "\n" ++ ((nested ++ Repeat "\t" d) ++ "\n"
          ++ (Repeat "\t" d ++ "\x7d")) := by
    apply String.ext
    simp [blockText, String.data_append]
  have hopen : readTags (Repeat "\t" d ++ tag ++ " \x7b") = [tag] := by
    have hd : (Repeat "\t" d ++ tag ++ " \x7b").data
        = List.replicate d '\t' ++ (tag.data ++ [' ', '\x7b']) := by
      simp [String.data_append, Repeat_data]
    have hnl := noNL_tabs_clean d tag hc [' ', '\x7b'] (by decide)
    simp only [readTags, hd, splitLines_single _ hnl, List.filterMap_cons, lineTag_open d tag hc,
      List.filterMap_nil]
  have hclose : readTags (Repeat "\t" d ++ "\x7d") = [] := by
    have hd : (Repeat "\t" d ++ "\x7d").data = List.replicate d '\t' ++ ['\x7d'] := by
      simp [String.data_append, Repeat_data]
    have hnl : '\n' ∉ List.replicate d '\t' ++ ['\x7d'] := by
      intro h
      rcases List.mem_append.mp h with h | h
      · have := List.eq_of_mem_replicate h
        revert this; decide
      · revert h; decide
    simp only [readTags, hd, splitLines_single _ hnl, List.filterMap_cons, lineTag_close,
      List.filterMap_nil]
  rw [h, readTags_nl, readTags_nl, hopen, readTags_tabs, hclose]
  simp

theorem fieldEntry_nested (decls : Decls) (recur : GoType → Nat → Run String)
    (indentLevel : Nat) (indent : String) (f : StructField) :
    fieldEntry decls recur indentLevel indent f =
      (if f.Tag.Get "gql" = "" then .ok none
       else
         match nestedType decls f with
         | .ok none => .ok (some (leafLine indent (f.Tag.Get "gql")))
         | .ok (some t) =>
           match recur t (indentLevel + 1) with
           | .ok nestedFields => .ok (some (blockText indent (f.Tag.Get "gql") nestedFields))
           | .panic msg => .panic msg
           | .overflow => .overflow
         | .panic msg => .panic msg
         | .overflow => .overflow) := by
  by_cases htag : f.Tag.Get "gql" = ""
  · simp [fieldEntry, htag]
  · simp only [fieldEntry, nestedType, htag, ne_eq, not_false_eq_true, if_true, if_false]
    by_cases hk : f.Typ.Kind = .Slice
    · simp only [hk, if_true]
      cases f.Typ.Elem with
      | ok elem =>
        by_cases hs : elem.Kind = .Struct
        · by_cases hp : HasPrefix (elem.Str decls) "null." = true
          · simp [hs, hp]
          · simp [hs, hp]
        · simp [hs]
      | panic msg => rfl
      | overflow => rfl
    · simp only [hk, if_false]
      by_cases hs : f.Typ.Kind = .Struct
      · by_cases hp : HasPrefix (f.Typ.Str decls) "null." = true
        · simp [hs, hp]
        · simp [hs, hp]
      · simp [hs]

theorem fieldsLoop_tags (decls : Decls) (recur : GoType → Nat → Run String)
    (below : GoType → Run (List String)) (d : Nat)
    (hrec : ∀ t, (recur t (d + 1)).map readTags = below t)
    (fs : List StructField) (hclean : ∀ f ∈ fs, cleanTag (f.Tag.Get "gql")) :
    (fieldsLoop decls recur d (Repeat "\t" d) fs []).map (fun es => (es.map readTags).flatten)
      = tagsLoop decls below fs := by
  induction fs with
  | nil => rfl
  | cons f rest ih =>
    have ihr := ih (fun g hg => hclean g (List.mem_cons_of_mem _ hg))
    have hc := hclean f (List.mem_cons_self _ _)
    rw [fieldsLoop_step, fieldEntry_nested]
    by_cases htag : f.Tag.Get "gql" = ""
    · simp only [htag, if_true, tagsLoop]
      exact ihr
    · simp only [htag, if_false, tagsLoop]
      cases hn : nestedType decls f with
      | ok o =>
        cases o with
        | none =>
          simp only [List.nil_append]
          rw [fieldsLoop_acc, ← ihr]
          cases fieldsLoop decls recur d (Repeat "\t" d) rest [] with
          | ok l => simp [Run.map, readTags_leafLine d _ hc htag]
          | panic msg => rfl
          | overflow => rfl
        | some t =>
          have hb := hrec t
          cases hr : recur t (d + 1) with
          | ok nested =>
            rw [hr] at hb
            simp only [Run.map] at hb
            simp only [List.nil_append, ← hb, hr]
            rw [fieldsLoop_acc, ← ihr]
            cases fieldsLoop decls recur d (Repeat "\t" d) rest [] with
            | ok l => simp [Run.map, readTags_blockText d _ _ hc]
            | panic msg => rfl
            | overflow => rfl
          | panic msg =>
            rw [hr] at hb
            simp only [Run.map] at hb
            simp only [← hb, hr]
            rfl
          | overflow =>
            rw [hr] at hb
            simp only [Run.map] at hb
            simp only [← hb, hr]
            rfl
      | panic msg => rfl
      | overflow => rfl

theorem getStructFields_tags (decls : Decls)
    (hclean : ∀ id, ∀ f ∈ (decls id).Fields, cleanTag (f.Tag.Get "gql"))
    (fuel : Nat) (t : GoType) (d : Nat) :
    (getStructFields decls fuel t d).map readTags = preorderTags decls fuel t := by
  induction fuel generalizing t d with
  | zero => rfl
  | succ n ih =>
    cases t with
    | struct id =>
      simp only [getStructFields, preorderTags, GoType.Fields]
      rw [← fieldsLoop_tags decls (getStructFields decls n) (preorderTags decls n) d
        (fun t => ih t (d + 1)) _ (hclean id)]
      cases fieldsLoop decls (getStructFields decls n) d (Repeat "\t" d) (decls id).Fields [] with
      | ok l => simp [Run.map, readTags_Join]
      | panic msg => rfl
      | overflow => rfl
    | basic k name => rfl
    | ptr elem => rfl
    | slice elem => rfl
    | namedSlice name elem => rfl

/-- C12: when the fields of a struct type are the fields `A` of one struct
type followed by the fields `B` of another and both `A` and `B` have a field
with a `gql` tag, `getStructFields` on it returns, at every depth and for
every recursion budget, the text for `A`, a newline and the text for `B`
(and fails as the first of the two that fails); the rendered entries of
`A ++ B` are always those of `A` followed by those of `B`; and when no `gql`
tag holds a tab, newline or brace, the tag names read off the lines of the
text that `getStructFields` returns for any type, top to bottom, are the
pre-order traversal of the tagged fields in declaration order. -/
theorem getStructFields_append (decls : Decls) (fuel : Nat) (idA idB idAB : Nat) (d : Nat)
    (hAB : (decls idAB).Fields = (decls idA).Fields ++ (decls idB).Fields)
    (hA : ∃ f ∈ (decls idA).Fields, f.Tag.Get "gql" ≠ "")
    (hB : ∃ f ∈ (decls idB).Fields, f.Tag.Get "gql" ≠ "") :
    getStructFields decls fuel (.struct idAB) d =
      (match getStructFields decls fuel (.struct idA) d with
       | .ok a =>
         match getStructFields decls fuel (.struct idB) d with
         | .ok b => .ok (a ++ "\n" ++ b)
         | .panic msg => .panic msg
         | .overflow => .overflow
       | .panic msg => .panic msg
       | .overflow => .overflow) ∧
    (∀ (recur : GoType → Nat → Run String) (indent : String),
      fieldsLoop decls recur d indent (decls idAB).Fields [] =
        (match fieldsLoop decls recur d indent (decls idA).Fields [] with
         | .ok la =>
           match fieldsLoop decls recur d indent (decls idB).Fields [] with
           | .ok lb => .ok (la ++ lb)
           | .panic msg => .panic msg
           | .overflow => .overflow
         | .panic msg => .panic msg
         | .overflow => .overflow)) ∧
    ((∀ id, ∀ f ∈ (decls id).Fields, cleanTag (f.Tag.Get "gql")) →
      ∀ t, (getStructFields decls fuel t d).map readTags = preorderTags decls fuel t) := by
  have hloop : ∀ (recur : GoType → Nat → Run String) (indent : String),
      fieldsLoop decls recur d indent (decls idAB).Fields [] =
        (match fieldsLoop decls recur d indent (decls idA).Fields [] with
         | .ok la =>
           match fieldsLoop decls recur d indent (decls idB).Fields [] with
           | .ok lb => .ok (la ++ lb)
           | .panic msg => .panic msg
           | .overflow => .overflow
         | .panic msg => .panic msg
         | .overflow => .overflow) := by
    intro recur indent
    rw [hAB, fieldsLoop_append]
    cases fieldsLoop decls recur d indent (decls idA).Fields [] with
    | ok la => exact fieldsLoop_acc decls recur d indent (decls idB).Fields la
    | panic msg => rfl
    | overflow => rfl
  refine ⟨?_, hloop, fun hclean t => getStructFields_tags decls hclean fuel t d⟩
  cases fuel with
  | zero => rfl
  | succ n =>
    simp only [getStructFields, GoType.Fields]
    rw [hloop]
    cases ha : fieldsLoop decls (getStructFields decls n) d (Repeat "\t" d)
        (decls idA).Fields [] with
    | ok la =>
      cases hb : fieldsLoop decls (getStructFields decls n) d (Repeat "\t" d)
          (decls idB).Fields [] with
      | ok lb =>
        simp only [Run.ok.injEq]
        exact Join_append la lb "\n" (fieldsLoop_ne_nil _ _ _ _ _ hA la ha)
          (fieldsLoop_ne_nil _ _ _ _ _ hB lb hb)
      | panic msg => rfl
      | overflow => rfl
    | panic msg => rfl
    | overflow => rfl

theorem splitDecls_clean (id : Nat) :
    ∀ f ∈ (splitDecls id).Fields, cleanTag (f.Tag.Get "gql") := by
  match id with
  | 0 => decide
  | 1 => decide
  | 2 => decide
  | 3 => decide
  | n + 4 =>
    have h : (splitDecls (n + 4)).Fields = [⟨"ID", "", [("gql", "id")], .basic .Int "int"⟩] := rfl
    rw [h]
    decide

/-- C12 at the scenario type, split into `ID`, `Name` and `Units`: the text is
the two texts with a newline between, and the tags read off its lines are
`id`, `name`, `units`, `id`, the pre-order traversal. -/
theorem getStructFields_append_witness :
    getStructFields splitDecls 2 (.struct 0) 2 =
      (match getStructFields splitDecls 2 (.struct 2) 2 with
       | .ok a =>
         match getStructFields splitDecls 2 (.struct 3) 2 with
         | .ok b => .ok (a ++ "\n" ++ b)
         | .panic msg => .panic msg
         | .overflow => .overflow
       | .panic msg => .panic msg
       | .overflow => .overflow) ∧
    (getStructFields splitDecls 2 (.struct 0) 2).map readTags
      = preorderTags splitDecls 2 (.struct 0) ∧
    preorderTags splitDecls 2 (.struct 0) = .ok ["id", "name", "units", "id"] :=
  ⟨(getStructFields_append splitDecls 2 2 3 0 2 (by decide) (by decide) (by decide)).1,
   (getStructFields_append splitDecls 2 2 3 0 2 (by decide) (by decide) (by decide)).2.2
     splitDecls_clean (.struct 0),
   by decide⟩

/-! ## Pointer records and the table (C13, C17) -/

/-- C13: on an empty table, `UpsertRow` with a pointer to the scenario record
(key `id`, not stored) finds the key, gets no rows from the existence check,
and then panics in `getValuesMap` without executing an insert or returning a
kind; with the struct value the first call executes exactly one insert and
returns kind `insert`, and a second call on the resulting transaction
executes exactly one update, no further insert, and returns kind `update`. -/
theorem UpsertRow_fresh_key_pointer_panics :
    (UpsertRow (tableTx "id" []) (some (.ptr (.struct contractFields))) "contracts" "id").1
      = .panic "reflect: NumField of non-struct type" ∧
    (UpsertRow (tableTx "id" []) (some (.ptr (.struct contractFields))) "contracts" "id").2.writes
      = [] ∧
    (UpsertRow (tableTx "id" []) (some (.struct contractFields)) "contracts" "id").1
      = .ok ("insert", none) ∧
    (UpsertRow (tableTx "id" []) (some (.struct contractFields)) "contracts" "id").2.writes
      = [.NamedExec "INSERT INTO contracts (id, name) VALUES (:id, :name);"
          [("id", .data "7"), ("name", .data "acme")]] ∧
    (UpsertRow (UpsertRow (tableTx "id" []) (some (.struct contractFields)) "contracts" "id").2
        (some (.struct contractFields)) "contracts" "id").1 = .ok ("update", none) ∧
    (UpsertRow (UpsertRow (tableTx "id" []) (some (.struct contractFields)) "contracts" "id").2
        (some (.struct contractFields)) "contracts" "id").2.writes
      = [.NamedExec "INSERT INTO contracts (id, name) VALUES (:id, :name);"
          [("id", .data "7"), ("name", .data "acme")],
         .NamedExec "UPDATE contracts SET name = :name WHERE id = :id;"
          [("id", .data "7"), ("name", .data "acme")]] := by
  refine ⟨by decide, by decide, by decide, by decide, by decide, by decide⟩

/-- C17: for every struct value, `getValuesMap` applied to a pointer to it
panics (`NumField` on the pointer type), while `generateInsertQuery`,
`generateUpdateQuery` and `getFieldValueByTag` give the same result for the
pointer as for the value; so `AddRow` and `UpdateRow` panic on a pointer
record without a call on the transaction. On the scenario record the value
itself gives the map of `id` and `name`. -/
theorem getValuesMap_pointer_panics (fields : List (StructField × Value)) (tx : Tx)
    (tableName keyField tagName : String) :
    getValuesMap (some (.ptr (.struct fields))) = .panic "reflect: NumField of non-struct type" ∧
    generateInsertQuery (some (.ptr (.struct fields))) tableName
      = generateInsertQuery (some (.struct fields)) tableName ∧
    generateUpdateQuery (some (.ptr (.struct fields))) tableName keyField
      = generateUpdateQuery (some (.struct fields)) tableName keyField ∧
    getFieldValueByTag (some (.ptr (.struct fields))) tagName
      = getFieldValueByTag (some (.struct fields)) tagName ∧
    AddRow tx (some (.ptr (.struct fields))) tableName
      = (.panic "reflect: NumField of non-struct type", tx) ∧
    UpdateRow tx (some (.ptr (.struct fields))) tableName keyField
      = (.panic "reflect: NumField of non-struct type", tx) ∧
    getValuesMap (some (.struct contractFields))
      = .ok [("id", .data "7"), ("name", .data "acme")] := by
  have hp : getValuesMap (some (.ptr (.struct fields)))
      = .panic "reflect: NumField of non-struct type" := by
    simp [getValuesMap, TypeOf, Val.Typ, RType.Fields]
  have hi := generateInsertQuery_struct fields tableName
  have hu := generateUpdateQuery_struct fields tableName keyField
  refine ⟨hp, hi.2, hu.2, ?_, ?_, ?_, by decide⟩
  · rw [(getFieldValueByTag_struct fields tagName).1, (getFieldValueByTag_struct fields tagName).2]
  · simp only [AddRow, hi.2, hi.1, hp]
  · simp only [UpdateRow, hu.2, hu.1, hp]

/-! ## The bound values (C14, C15) -/

theorem ValuesMap_get_set (m : ValuesMap) (k k' : String) (v : Value) :
    (m.set k v).get k' = if k = k' then some v else m.get k' := by
  induction m with
  | nil => simp [ValuesMap.set, ValuesMap.get]
  | cons e rest ih =>
    obtain ⟨a, b⟩ := e
    by_cases hak : a = k
    · subst hak
      by_cases hk : a = k' <;> simp [ValuesMap.set, ValuesMap.get, hk]
    · by_cases hk : a = k'
      · subst hk
        simp [ValuesMap.set, ValuesMap.get, hak, Ne.symm hak]
      · simp [ValuesMap.set, ValuesMap.get, hak, hk, ih]

theorem dbTags_cons (f : StructField) (rest : List StructField) :
    dbTags (f :: rest)
      = if f.Tag.Get "db" = "" then dbTags rest else f.Tag.Get "db" :: dbTags rest := by
  by_cases h : f.Tag.Get "db" = "" <;> simp [dbTags, h]

theorem mem_dbTags (t : String) (fs : List StructField) :
    t ∈ dbTags fs ↔ t ≠ "" ∧ ∃ f ∈ fs, f.Tag.Get "db" = t := by
  simp only [dbTags, List.mem_filter, List.mem_map, decide_eq_true_eq]
  exact ⟨fun ⟨h1, h2⟩ => ⟨h2, h1⟩, fun ⟨h1, h2⟩ => ⟨h2, h1⟩⟩

theorem valuesLoop_other (obj : Obj) (fs : List StructField) (m m' : ValuesMap)
    (h : valuesLoop obj fs m = .ok m') (t : String) (ht : t ∉ dbTags fs) :
    m'.get t = m.get t := by
  induction fs generalizing m with
  | nil =>
    simp only [valuesLoop, Run.ok.injEq] at h
    rw [h]
  | cons f rest ih =>
    rw [dbTags_cons] at ht
    by_cases hf : f.Tag.Get "db" = ""
    · simp only [hf, if_true] at ht
      simp only [valuesLoop, hf, if_true] at h
      exact ih m h ht
    · simp only [hf, if_false, List.mem_cons, not_or] at ht
      simp only [valuesLoop, hf, if_false] at h
      cases hl : getFieldValueByTag obj (f.Tag.Get "db") with
      | ok r =>
        obtain ⟨val, err⟩ := r
        simp only [hl] at h
        rw [ih _ h ht.2, ValuesMap_get_set, if_neg (Ne.symm ht.1)]
      | panic msg => simp [hl] at h
      | overflow => simp [hl] at h

theorem valuesLoop_keys (obj : Obj) (fs : List StructField) (m m' : ValuesMap)
    (h : valuesLoop obj fs m = .ok m') (t : String) :
    (m'.get t).isSome = true ↔ (t ∈ dbTags fs ∨ (m.get t).isSome = true) := by
  induction fs generalizing m with
  | nil =>
    simp only [valuesLoop, Run.ok.injEq] at h
    simp [h, dbTags]
  | cons f rest ih =>
    rw [dbTags_cons]
    by_cases hf : f.Tag.Get "db" = ""
    · simp only [valuesLoop, hf, if_true] at h
      simp only [hf, if_true]
      exact ih m h
    · simp only [valuesLoop, hf, if_false] at h
      simp only [hf, if_false, List.mem_cons]
      cases hl : getFieldValueByTag obj (f.Tag.Get "db") with
      | ok r =>
        obtain ⟨val, err⟩ := r
        simp only [hl] at h
        rw [ih _ h, ValuesMap_get_set]
        by_cases ht : f.Tag.Get "db" = t
        · simp [ht]
        · simp [ht, Ne.symm ht]
      | panic msg => simp [hl] at h
      | overflow => simp [hl] at h

theorem valuesLoop_ok (obj : Obj) (suf : List (StructField × Value)) (m : ValuesMap)
    (H : ∀ p ∈ suf, p.1.Tag.Get "db" ≠ "" →
      getFieldValueByTag obj (p.1.Tag.Get "db") = .ok (p.2, none)) :
    ∃ m', valuesLoop obj (suf.map Prod.fst) m = .ok m' ∧
      ((dbTags (suf.map Prod.fst)).Nodup → ∀ p ∈ suf, p.1.Tag.Get "db" ≠ "" →
        m'.get (p.1.Tag.Get "db") = some (boundValue p)) := by
  induction suf generalizing m with
  | nil => exact ⟨m, rfl, fun _ p hp => absurd hp (List.not_mem_nil _)⟩
  | cons q rest ih =>
    have Hrest : ∀ p ∈ rest, p.1.Tag.Get "db" ≠ "" →
        getFieldValueByTag obj (p.1.Tag.Get "db") = .ok (p.2, none) :=
      fun p hp => H p (List.mem_cons_of_mem _ hp)
    by_cases hq : q.1.Tag.Get "db" = ""
    · obtain ⟨m', hm', hv⟩ := ih m Hrest
      refine ⟨m', by simpa [valuesLoop, hq] using hm', ?_⟩
      intro hnd p hp hpt
      rw [List.map_cons, dbTags_cons, if_pos hq] at hnd
      rcases List.mem_cons.mp hp with rfl | hp2
      · exact absurd hq hpt
      · exact hv hnd p hp2 hpt
    · have hlook := H q (List.mem_cons_self _ _) hq
      obtain ⟨m', hm', hv⟩ := ih (m.set (q.1.Tag.Get "db") (boundValue q)) Hrest
      have hstep : valuesLoop obj ((q :: rest).map Prod.fst) m = .ok m' := by
        simp only [List.map_cons, valuesLoop, hq, if_false, hlook]
        simpa [boundValue] using hm'
      refine ⟨m', hstep, ?_⟩
      intro hnd p hp hpt
      rw [List.map_cons, dbTags_cons, if_neg hq, List.nodup_cons] at hnd
      rcases List.mem_cons.mp hp with rfl | hp2
      · rw [valuesLoop_other obj _ _ _ hm' _ hnd.1, ValuesMap_get_set, if_pos rfl]
      · exact hv hnd.2 p hp2 hpt

theorem lookupLoop_unique (all : List (StructField × Value))
    (hn : (dbTags (all.map Prod.fst)).Nodup) (p : StructField × Value) (hp : p ∈ all)
    (ht : p.1.Tag.Get "db" ≠ "") (hx : p.1.IsExported = true) :
    lookupLoop (p.1.Tag.Get "db") all = .ok (p.2, none) := by
  induction all with
  | nil => exact absurd hp (List.not_mem_nil _)
  | cons q rest ih =>
    obtain ⟨g, w⟩ := q
    rw [List.map_cons, dbTags_cons] at hn
    by_cases hg : g.Tag.Get "db" = p.1.Tag.Get "db"
    · have hgne : ¬ g.Tag.Get "db" = "" := by rw [hg]; exact ht
      simp only [hgne, if_false, List.nodup_cons] at hn
      rcases List.mem_cons.mp hp with rfl | hp2
      · simp [lookupLoop, hx]
      · exfalso
        apply hn.1
        rw [hg]
        exact (mem_dbTags _ _).mpr ⟨ht, p.1, List.mem_map_of_mem _ hp2, rfl⟩
    · have hp2 : p ∈ rest := by
        rcases List.mem_cons.mp hp with rfl | hp2
        · exact absurd rfl hg
        · exact hp2
      have hn2 : (dbTags (rest.map Prod.fst)).Nodup := by
        by_cases hge : g.Tag.Get "db" = ""
        · simpa [hge] using hn
        · simp only [hge, if_false, List.nodup_cons] at hn
          exact hn.2
      simp only [lookupLoop, hg, if_false]
      exact ih hn2 hp2

theorem lookupLoop_returns (all : List (StructField × Value))
    (hx : ∀ p ∈ all, p.1.Tag.Get "db" ≠ "" → p.1.IsExported = true) (t : String) (ht : t ≠ "") :
    ∃ r, lookupLoop t all = .ok r := by
  induction all with
  | nil => exact ⟨_, rfl⟩
  | cons q rest ih =>
    obtain ⟨g, w⟩ := q
    by_cases hg : g.Tag.Get "db" = t
    · have hgx : g.IsExported = true :=
        hx (g, w) (List.mem_cons_self _ _) (by rw [hg]; exact ht)
      exact ⟨(w, none), by simp [lookupLoop, hg, hgx]⟩
    · simp only [lookupLoop, hg, if_false]
      exact ih (fun p hp => hx p (List.mem_cons_of_mem _ hp))

theorem valuesLoop_returns (obj : Obj) (fs : List StructField) (m : ValuesMap)
    (H : ∀ t, t ≠ "" → ∃ r, getFieldValueByTag obj t = .ok r) :
    ∃ m', valuesLoop obj fs m = .ok m' := by
  induction fs generalizing m with
  | nil => exact ⟨m, rfl⟩
  | cons f rest ih =>
    by_cases hf : f.Tag.Get "db" = ""
    · simpa [valuesLoop, hf] using ih m
    · obtain ⟨r, hr⟩ := H _ hf
      obtain ⟨val, err⟩ := r
      simp only [valuesLoop, hf, if_false, hr]
      exact ih _

theorem getValuesMap_struct (fields : List (StructField × Value)) :
    getValuesMap (some (.struct fields))
      = valuesLoop (some (.struct fields)) (fields.map Prod.fst) [] := by
  simp [getValuesMap, TypeOf, Val.Typ, RType.Fields]

/-- C14, as stated, fails: when two fields carry the same `db` tag, the tag is
mapped to the value of the first field, wrapped as the last one's type says,
which is the bound value of neither field; and on a record whose tagged field
is not exported `getValuesMap` panics instead of returning a map. -/
theorem getValuesMap_twin_tags :
    getValuesMap (some (.struct twinFields)) = .ok [("x", .data "[1]")] ∧
    (∀ p ∈ twinFields, p.1.Tag.Get "db" = "x" ∧
      ValuesMap.get [("x", .data "[1]")] (p.1.Tag.Get "db") ≠ some (boundValue p)) ∧
    getValuesMap (some (.struct hiddenFields))
      = .panic "reflect.Value.Interface: cannot return value obtained from unexported field or method" := by
  refine ⟨by decide, by decide, by decide⟩

/-- C14 (amended): for a struct record whose fields with a `db` tag are
exported and carry pairwise distinct tags, `getValuesMap` returns a map whose
keys are exactly the non-empty `db` tags of the top-level fields, and the tag
of each tagged field is mapped to the runtime value of that field, wrapped by
`pq.Array` exactly when the field is slice-typed. -/
theorem getValuesMap_spec (fields : List (StructField × Value))
    (hx : ∀ p ∈ fields, p.1.Tag.Get "db" ≠ "" → p.1.IsExported = true)
    (hn : (dbTags (fields.map Prod.fst)).Nodup) :
    ∃ m, getValuesMap (some (.struct fields)) = .ok m ∧
      (∀ t, (m.get t).isSome = true ↔ t ∈ dbTags (fields.map Prod.fst)) ∧
      (∀ p ∈ fields, p.1.Tag.Get "db" ≠ "" →
        m.get (p.1.Tag.Get "db") = some (if p.1.Typ.Kind = .Slice then pqArray p.2 else p.2)) := by
  have H : ∀ p ∈ fields, p.1.Tag.Get "db" ≠ "" →
      getFieldValueByTag (some (.struct fields)) (p.1.Tag.Get "db") = .ok (p.2, none) := by
    intro p hp ht
    rw [(getFieldValueByTag_struct fields _).1]
    exact lookupLoop_unique fields hn p hp ht (hx p hp ht)
  obtain ⟨m, hm, hv⟩ := valuesLoop_ok (some (.struct fields)) fields [] H
  refine ⟨m, by rw [getValuesMap_struct, hm], ?_, ?_⟩
  · intro t
    rw [valuesLoop_keys _ _ _ _ hm t]
    simp [ValuesMap.get]
  · intro p hp ht
    exact hv hn p hp ht

/-- C14 (amended) at the scenario record: the map holds `id` and `name`. -/
theorem getValuesMap_spec_witness :
    ∃ m, getValuesMap (some (.struct contractFields)) = .ok m ∧
      (∀ t, (m.get t).isSome = true ↔ t ∈ dbTags (contractFields.map Prod.fst)) ∧
      (∀ p ∈ contractFields, p.1.Tag.Get "db" ≠ "" →
        m.get (p.1.Tag.Get "db") = some (if p.1.Typ.Kind = .Slice then pqArray p.2 else p.2)) :=
  getValuesMap_spec contractFields (by decide) (by decide)

/-- C15, as stated, fails: on a record without any `db` tag the key field `id`
matches no tag, and `generateUpdateQuery` returns a statement whose SET list
is empty. -/
theorem generateUpdateQuery_empty_set_list :
    "id" ∉ dbTags (unitsOnlyFields.map Prod.fst) ∧
    updateLoop "id" (unitsOnlyFields.map Prod.fst) [] = [] ∧
    generateUpdateQuery (some (.struct unitsOnlyFields)) "contracts" "id"
      = .ok "UPDATE contracts SET  WHERE id = :id;" := by
  refine ⟨by decide, by decide, by decide⟩

/-- C15 (amended): when the key field is none of the non-empty `db` tags of
the record, `generateUpdateQuery` returns, for the struct value and a pointer
to it, `UPDATE <table> SET <A> WHERE <key> = :<key>;` where `A` joins the
assignments of all non-empty `db` tags; the list of assignments is non-empty
exactly when some field has a `db` tag; and a map that `getValuesMap` returns
for the struct value has no entry for the key field, such a map being
returned whenever the tagged fields are exported. -/
theorem generateUpdateQuery_unmatched_key (fields : List (StructField × Value))
    (tableName keyField : String) (hk : keyField ∉ dbTags (fields.map Prod.fst)) :
    generateUpdateQuery (some (.struct fields)) tableName keyField =
      .ok ("UPDATE " ++ tableName ++ " SET "
        ++ Join ((dbTags (fields.map Prod.fst)).map (fun c => c ++ " = :" ++ c)) ", "
        ++ " WHERE " ++ keyField ++ " = :" ++ keyField ++ ";") ∧
    generateUpdateQuery (some (.ptr (.struct fields))) tableName keyField
      = generateUpdateQuery (some (.struct fields)) tableName keyField ∧
    updateLoop keyField (fields.map Prod.fst) []
      = (dbTags (fields.map Prod.fst)).map (fun c => c ++ " = :" ++ c) ∧
    (updateLoop keyField (fields.map Prod.fst) [] ≠ [] ↔ ∃ p ∈ fields, p.1.Tag.Get "db" ≠ "") ∧
    (∀ m, getValuesMap (some (.struct fields)) = .ok m → m.get keyField = none) ∧
    ((∀ p ∈ fields, p.1.Tag.Get "db" ≠ "" → p.1.IsExported = true) →
      ∃ m, getValuesMap (some (.struct fields)) = .ok m) := by
  have hfil : (dbTags (fields.map Prod.fst)).filter (fun c => c ≠ keyField)
      = dbTags (fields.map Prod.fst) := by
    apply List.filter_eq_self.mpr
    intro c hc
    simp only [ne_eq, decide_eq_true_eq]
    intro h
    exact hk (h ▸ hc)
  have hloop : updateLoop keyField (fields.map Prod.fst) []
      = (dbTags (fields.map Prod.fst)).map (fun c => c ++ " = :" ++ c) := by
    rw [updateLoop_eq, hfil, List.nil_append]
  refine ⟨?_, (generateUpdateQuery_struct fields tableName keyField).2, hloop, ?_, ?_, ?_⟩
  · rw [(generateUpdateQuery_struct fields tableName keyField).1, hfil]
  · rw [hloop]
    constructor
    · intro hne
      cases hd : dbTags (fields.map Prod.fst) with
      | nil => simp [hd] at hne
      | cons t rest =>
        have ht : t ∈ dbTags (fields.map Prod.fst) := by rw [hd]; exact List.mem_cons_self _ _
        obtain ⟨htne, f, hf, hft⟩ := (mem_dbTags _ _).mp ht
        obtain ⟨p, hp, rfl⟩ := List.mem_map.mp hf
        exact ⟨p, hp, by rw [hft]; exact htne⟩
    · rintro ⟨p, hp, hpt⟩ hnil
      have hmem : p.1.Tag.Get "db" ∈ dbTags (fields.map Prod.fst) :=
        (mem_dbTags _ _).mpr ⟨hpt, p.1, List.mem_map_of_mem _ hp, rfl⟩
      rw [List.map_eq_nil_iff] at hnil
      rw [hnil] at hmem
      exact absurd hmem (List.not_mem_nil _)
  · intro m hm
    rw [getValuesMap_struct] at hm
    rw [valuesLoop_other _ _ _ _ hm keyField hk]
    rfl
  · intro hx
    rw [getValuesMap_struct]
    apply valuesLoop_returns
    intro t ht
    rw [(getFieldValueByTag_struct fields t).1]
    exact lookupLoop_returns fields hx t ht

/-- C15 (amended) at the scenario record with the key field `uuid`. -/
theorem generateUpdateQuery_unmatched_key_witness :
    "uuid" ∉ dbTags (contractFields.map Prod.fst) ∧
    generateUpdateQuery (some (.struct contractFields)) "contracts" "uuid" =
      .ok ("UPDATE " ++ "contracts" ++ " SET "
        ++ Join ((dbTags (contractFields.map Prod.fst)).map (fun c => c ++ " = :" ++ c)) ", "
        ++ " WHERE " ++ "uuid" ++ " = :" ++ "uuid" ++ ";") :=
  ⟨by decide, (generateUpdateQuery_unmatched_key contractFields "contracts" "uuid" (by decide)).1⟩

/-! ## Empty blocks, self-referential types and the scalar wrappers (C16, C18, C19, C20) -/

/-- C16: for the record type `Event` with the fields `At YyyyMmDdHhMmSs gql:"at"`
and `Tags ArrayToString gql:"tags"` (no brace, tab or newline in the names
and tags, empty filter type name) the document of `BuildQuery` has, between
the opening line `at {` and the line of its closing brace, a line of two tabs
only: it starts with as many tabs as the opening line, not with at least one
more. -/
theorem BuildQuery_empty_block_indent (fuel : Nat) :
    (∀ s ∈ ["Event", "at", "tags", ""], ∀ c ∈ s.data,
      c ≠ '\x7b' ∧ c ≠ '\x7d' ∧ c ≠ '\t' ∧ c ≠ '\n') ∧
    BuildQuery eventDecls (fuel + 2) (.struct 0) "" =
      .ok (Join ["", "query ($after: Int, $limit: Int) \x7b",
        "\tEvent(after: $after, limit: $limit) \x7b",
        "\t\tat \x7b", "\t\t", "\t\t\x7d",
        "\t\ttags \x7b", "\t\t", "\t\t\x7d",
        "\t\x7d", "\x7d"] "\n") ∧
    leadingTabs "\t\tat \x7b" = 2 ∧ leadingTabs "\t\t\x7d" = 2 ∧ leadingTabs "\t\t" = 2 ∧
    ¬ (leadingTabs "\t\tat \x7b" + 1 ≤ leadingTabs "\t\t") := by
  refine ⟨by decide, ?_, by decide, by decide, by decide, by decide⟩
  cases fuel <;> rfl

/-- C18: on the type `Node` with the field `Children []Node gql:"children"`
the recursion of `getStructFields` never ends: for every recursion budget,
every depth and every filter type name, `getStructFields` and `BuildQuery`
use the budget up and return nothing. -/
theorem getStructFields_self_slice_overflows (fuel d : Nat) (f : String) :
    getStructFields nodeDecls fuel (.struct 0) d = .overflow ∧
    BuildQuery nodeDecls fuel (.struct 0) f = .overflow := by
  have h : ∀ (fuel d : Nat), getStructFields nodeDecls fuel (.struct 0) d = .overflow := by
    intro fuel
    induction fuel with
    | zero => intro d; rfl
    | succ n ih =>
      intro d
      have he : fieldEntry nodeDecls (getStructFields nodeDecls n) d (Repeat "\t" d)
          ⟨"Children", "", [("gql", "children")], .slice (.struct 0)⟩ = .overflow := by
        have hp : HasPrefix "graphql.Node" "null." = false := by decide
        simp [fieldEntry, StructTag.Get, GoType.Kind, GoType.Elem, GoType.Str, nodeDecls, hp, ih]
      have hid : fieldEntry nodeDecls (getStructFields nodeDecls n) d (Repeat "\t" d)
          ⟨"ID", "", [("gql", "id")], .basic .Int "int"⟩
          = .ok (some (leafLine (Repeat "\t" d) "id")) := by
        simp [fieldEntry, StructTag.Get, GoType.Kind]
      simp only [getStructFields, GoType.Fields, nodeDecls]
      rw [fieldsLoop_step, hid]
      simp only []
      rw [fieldsLoop_step, he]
  exact ⟨h fuel d, by simp only [BuildQuery, h fuel 2]⟩

/-- C19: the wrapper types `YyyyMmDdHhMmSs` and `ArrayToString` have no field
with a `gql` tag and names without the prefix `null.`, so `getStructFields`
renders a tagged field of such a type as a block whose body is empty: for
`Event` it returns `at {`, a line of tabs only and `}`, and the same for
`tags`. -/
theorem getStructFields_empty_block (fuel : Nat) :
    HasPrefix (eventDecls 1).Str "null." = false ∧
    HasPrefix (eventDecls 2).Str "null." = false ∧
    getStructFields eventDecls (fuel + 1) (.struct 1) 3 = .ok "" ∧
    getStructFields eventDecls (fuel + 1) (.struct 2) 3 = .ok "" ∧
    getStructFields eventDecls (fuel + 2) (.struct 0) 2
      = .ok (blockText "\t\t" "at" "" ++ "\n" ++ blockText "\t\t" "tags" "") ∧
    blockText "\t\t" "at" "" = "\t\tat \x7b\n\t\t\n\t\t\x7d" := by
  refine ⟨by decide, by decide, ?_, ?_, ?_, by decide⟩
  · cases fuel <;> rfl
  · cases fuel <;> rfl
  · cases fuel <;> rfl

/-- C20: `YyyyMmDdHhMmSs.UnmarshalJSON` never changes `Valid`: for every
parser, receiver and input the receiver's `Valid` is what it was before the
call. With a zero receiver and an input on which the parse succeeds it leaves
`Time` set to the parsed time and `Valid` false, where
`ArrayToString.UnmarshalJSON` strips the quotes and sets `Valid` to true; on
`null` both return nil, the first leaving the receiver as it was and the
second setting `Valid` to false. -/
theorem YyyyMmDdHhMmSs_UnmarshalJSON_keeps_Valid {τ : Type}
    (Parse : String → String → Except String τ) (date : NullTime τ) (data : String) :
    (YyyyMmDdHhMmSs.UnmarshalJSON Parse date data).1.Valid = date.Valid ∧
    YyyyMmDdHhMmSs.UnmarshalJSON sampleParse ⟨"", false⟩ "\"2024-01-02 03:04:05\""
      = (⟨"2024-01-02T03:04:05Z", false⟩, none) ∧
    ArrayToString.UnmarshalJSON ⟨"", false⟩ "\"a,b\"" = (⟨"a,b", true⟩, none) ∧
    YyyyMmDdHhMmSs.UnmarshalJSON sampleParse ⟨"before", true⟩ "null" = (⟨"before", true⟩, none) ∧
    ArrayToString.UnmarshalJSON ⟨"before", true⟩ "null" = (⟨"before", false⟩, none) := by
  refine ⟨?_, by decide, by decide, by decide, by decide⟩
  simp only [YyyyMmDdHhMmSs.UnmarshalJSON]
  split
  · rfl
  · split <;> rfl

end QueryBuilder
